import Mathlib

/-!
# Verification of the Financial Report Engine

Shallow embedding of
`erpnext/accounts/doctype/financial_report_template/financial_report_engine.py`
and proofs of the specification claims about it.

Modelling conventions:
* Python floats are modelled as rationals (`ℚ`); `frappe.utils.flt(x, p)`
  ("round to `p` decimals") is modelled by `fltPrec`.
* Python dicts are modelled as insertion-ordered association lists
  (`List (key × value)`); `dictInsert` is `d[k] = v` (overwrite keeps the
  key's position, new keys are appended) and `List.lookup` is `d.get(k)`.
* Dates are modelled as integer day offsets from 1900-01-01, so
  `frappe.utils.date_diff a b` is `a - b`.
* Database query results and the external `frappe` collaborators
  (`safe_eval`, validators, `frappe.call`) are passed in as explicit
  parameters: the theorems quantify over every possible answer from them.
* Exceptions are modelled with `Except`/`Option`: `Except.error`
  (or an outer `none`) is a raised exception.
-/

/-- `frappe.utils.flt(x, p)`: round to `p` decimal places.  (Tie-breaking at
exact half-way points is irrelevant to every claim proved here.) -/
def fltPrec (x : ℚ) (p : ℕ) : ℚ := (round (x * 10 ^ p) : ℤ) / 10 ^ p

/-- `flt(x, 2)`, the rounding used by the growth transform. -/
def flt2 (x : ℚ) : ℚ := fltPrec x 2

/-- Python `d[k] = v` on an insertion-ordered dict: an existing key keeps its
position and gets the new value, a new key is appended at the end. -/
def dictInsert {α β : Type} [DecidableEq α] (d : List (α × β)) (k : α) (v : β) :
    List (α × β) :=
  if d.any (fun p => p.1 = k) then
    d.map (fun p => if p.1 = k then (k, v) else p)
  else
    d ++ [(k, v)]

-- ============================================================================
-- DATA MODELS (section "DATA MODELS" of the source)
-- ============================================================================

/-- A cell value of a processed row: `Account Data` / `Calculated Amount` /
`Custom API` rows carry floats, `Blank Line` rows carry `""` strings. -/
inductive Val : Type
  | num (x : ℚ)
  | str (s : String)
deriving DecidableEq, Repr

/-- `FinancialReportRow`: one template row (external read-only input).
`idx` is the declared child-table index; `getattr(row, "idx", 0) or 0`
is modelled as `row.idx.getD 0`.  Flags absent on a row (`getattr` with a
default) are modelled by the corresponding default field value. -/
structure Row : Type where
  idx : Option ℕ := none
  reference_code : Option String := none
  data_source : String := ""
  display_name : String := ""
  calculation_formula : String := ""
  balance_type : String := ""
  reverse_sign : Bool := false
  bold_text : Bool := false
  italic_text : Bool := false
  hidden_calculation : Bool := false
  hide_when_empty : Bool := false
deriving DecidableEq, Repr

/-- `PeriodValue`: financial data for a single period. -/
structure PeriodValue : Type where
  period_key : String
  opening : ℚ := 0
  closing : ℚ := 0
  movement : ℚ := 0
deriving DecidableEq, Repr

/-- `PeriodValue.get_value`. -/
def PeriodValue.get_value (pv : PeriodValue) (balance_type : String) : ℚ :=
  if balance_type = "Opening Balance" then pv.opening
  else if balance_type = "Closing Balance" then pv.closing
  else if balance_type = "Period Movement (Debits - Credits)" then pv.movement
  else 0

/-- `AccountData`: account data across all periods; `period_values` is the
insertion-ordered dict keyed by period key. -/
structure AccountData : Type where
  account : String
  account_name : String := ""
  account_number : String := ""
  period_values : List (String × PeriodValue) := []
deriving DecidableEq, Repr

/-- `AccountData.add_period`. -/
def AccountData.add_period (ad : AccountData) (pv : PeriodValue) : AccountData :=
  { ad with period_values := dictInsert ad.period_values pv.period_key pv }

/-- `AccountData.get_period`. -/
def AccountData.get_period (ad : AccountData) (key : String) : Option PeriodValue :=
  ad.period_values.lookup key

/-- `AccountData.has_periods`. -/
def AccountData.has_periods (ad : AccountData) : Bool :=
  ad.period_values.length > 0

/-- `AccountData.accumulate_values`: fold opening into movement
(closing is already accumulated). -/
def AccountData.accumulate_values (ad : AccountData) : AccountData :=
  { ad with period_values :=
      ad.period_values.map (fun p =>
        (p.1, { p.2 with movement := p.2.movement + p.2.opening })) }

/-- `AccountData.unaccumulate_values`: subtract opening from closing
(movement is already per-period). -/
def AccountData.unaccumulate_values (ad : AccountData) : AccountData :=
  { ad with period_values :=
      ad.period_values.map (fun p =>
        (p.1, { p.2 with closing := p.2.closing - p.2.opening })) }

/-- `RowData`: a processed template row with calculated values. -/
structure RowData : Type where
  row : Row
  values : List Val := []
  account_details : List (String × AccountData) := []
  is_detail_row : Bool := false
  parent_reference : Option String := none
deriving DecidableEq, Repr

/-- `SegmentData`. -/
structure SegmentData : Type where
  rows : List RowData := []
  label : String := ""
  index : ℕ := 0
deriving DecidableEq, Repr

/-- `SectionData`. -/
structure SectionData : Type where
  segments : List SegmentData
  label : String := ""
  index : ℕ := 0
deriving DecidableEq, Repr

/-- A reporting period descriptor (produced externally by `get_period_list`);
dates are day offsets from 1900-01-01. -/
structure Period : Type where
  key : String
  from_date : ℤ := 0
  to_date : ℤ := 0
deriving DecidableEq, Repr

-- ============================================================================
-- `FinancialReportEngine._validate_filters` and the view dispatch
-- ============================================================================

/-- The filters examined by `FinancialReportEngine._validate_filters`.
`none` models a missing (falsy) filter value. -/
structure Filters : Type where
  report_template : Option String := none
  period_start_date : Option String := none
  period_end_date : Option String := none
  presentation_currency : Option String := none
  selected_view : Option String := none
  accumulated_values : Option Bool := none
deriving DecidableEq, Repr

/-- `FinancialReportEngine._validate_filters`.  `frappe.throw` on the first
missing required filter is `Except.error`; `frappe.msgprint` warnings are
collected in the returned list (execution continues). -/
def validateFilters (f : Filters) : Except String (List String) :=
  if f.report_template.isNone then
    Except.error "Missing required filter: report_template"
  else if f.period_start_date.isNone then
    Except.error "Missing required filter: period_start_date"
  else if f.period_end_date.isNone then
    Except.error "Missing required filter: period_end_date"
  else
    let w1 : List String :=
      if f.presentation_currency.isSome then
        ["Currency filters are currently unsupported in Custom Financial Report."]
      else []
    let w2 : List String :=
      match f.selected_view with
      | some v =>
          if v = "Report" ∨ v = "Growth" then w1
          else w1 ++ [v ++ " view is currently unsupported in Custom Financial Report."]
      | none => w1
    Except.ok w2

-- ============================================================================
-- `GrowthViewTransformer` (section "VIEW TRANSFORMS")
-- ============================================================================

/-- A formatted report row as seen by `GrowthViewTransformer`: the
`is_blank_line` flag and the per-period values (`none` is Python `None`). -/
structure FRow : Type where
  is_blank_line : Bool := false
  vals : List (Option ℚ) := []
deriving DecidableEq, Repr

/-- `GrowthViewTransformer._calculate_growth`.  The outer `none` is the
`TypeError` Python raises when `previous_value` is `None` and
`current_value` is a number (both guard tests are then false and the
arithmetic in the `else` branch fails). -/
def calculateGrowth (previous current : Option ℚ) : Option (Option ℚ) :=
  match current with
  | none => some none
  | some c =>
      match previous with
      | some p =>
          if p = 0 ∧ 0 < c then some (some 100)
          else if p = 0 ∧ c ≤ 0 then some (some 0)
          else some (some (flt2 (((c - p) / |p|) * 100)))
      | none => none

/-- The per-row loop body of `GrowthViewTransformer.transform`: period 0 is
left untouched, period `i > 0` becomes `_calculate_growth(vals[i-1], vals[i])`
where both arguments are read from the not-yet-updated row (the dict is
updated only after the loop).  `none` propagates a raised exception. -/
def transformRow (vals : List (Option ℚ)) : Option (List (Option ℚ)) :=
  (List.range vals.length).mapM (fun i =>
    if i = 0 then some (vals.getD 0 none)
    else calculateGrowth (vals.getD (i - 1) none) (vals.getD i none))

/-- `GrowthViewTransformer.transform` over all formatted rows: rows flagged
`is_blank_line` are skipped, every other row is transformed in place. -/
def growthTransform (rows : List FRow) : Option (List FRow) :=
  rows.mapM (fun r =>
    if r.is_blank_line then some r
    else (transformRow r.vals).map (fun vs => { r with vals := vs }))

/-- `FinancialReportEngine.apply_view_transformation`: the Growth transformer
runs only when `selected_view == "Growth"`; the default "Report" view (and
any other value) applies no transformation. -/
def applyViewTransformation (selected_view : Option String) (rows : List FRow) :
    Option (List FRow) :=
  if selected_view = some "Growth" then growthTransform rows
  else some rows

-- ============================================================================
-- `SegmentOrganizer` (section "DATA FORMATTING")
-- ============================================================================

/-- Significance test used by `_should_show_row`:
`isinstance(val, int | float) and abs(flt(val)) > 0.01`. -/
def isSignificant (v : Val) : Bool :=
  match v with
  | Val.num x => |x| > 1 / 100
  | Val.str _ => false

/-- `SegmentOrganizer._should_show_row`: Blank Lines are always shown;
`hidden_calculation` rows are hidden; `hide_when_empty` rows are shown only
when some period value is significant. -/
def shouldShowRow (rd : RowData) : Bool :=
  if rd.row.data_source = "Blank Line" then true
  else if rd.row.hidden_calculation then false
  else if rd.row.hide_when_empty then
    (rd.values.filter isSignificant).length > 0
  else true

/-- The synthetic section-header row
`RowData(row=frappe._dict({"data_source": "Blank Line", "display_name": label,
"bold_text": True}))` injected by `_organize_into_segments`. -/
def sectionHeaderRow (label : String) : RowData :=
  { row := { data_source := "Blank Line", display_name := label, bold_text := true } }

/-- The plain `RowData(row=frappe._dict({"data_source": "Blank Line"}))` that
replaces the section header after it has been inserted once. -/
def plainBlankRow : RowData :=
  { row := { data_source := "Blank Line" } }

/-- Loop state of `_organize_into_segments`:
(segments, current_rows, segment_index, segment_label, section_header). -/
def segStep (st : List SegmentData × List RowData × ℕ × String × Option RowData)
    (rd : RowData) : List SegmentData × List RowData × ℕ × String × Option RowData :=
  let (segments, currentRows, segIdx, segLabel, header) := st
  if rd.row.data_source = "Column Break" then
    -- `if section_header and current_rows: current_rows.insert(0, header); header = blank`
    let ins : List RowData × Option RowData :=
      match header with
      | some h => if currentRows ≠ [] then (h :: currentRows, some plainBlankRow)
                  else (currentRows, some h)
      | none => (currentRows, none)
    -- `if current_rows: segments.append(...); segment_index += 1; current_rows = []`
    if ins.1 ≠ [] then
      (segments ++ [{ rows := ins.1, label := segLabel, index := segIdx }],
        [], segIdx + 1, rd.row.display_name, ins.2)
    else
      (segments, ins.1, segIdx, rd.row.display_name, ins.2)
  else
    (segments, currentRows ++ [rd], segIdx, segLabel, header)

/-- `SegmentOrganizer._organize_into_segments`. -/
def organizeIntoSegments (rows : List RowData) (section_label : String) :
    List SegmentData :=
  let header0 : Option RowData :=
    if section_label ≠ "" then some (sectionHeaderRow section_label) else none
  let st := rows.foldl segStep ([], [], 0, "", header0)
  let (segments, currentRows, segIdx, segLabel, header) := st
  -- final `if section_header and current_rows: current_rows.insert(0, header)`
  let finalRows : List RowData :=
    match header with
    | some h => if currentRows ≠ [] then h :: currentRows else currentRows
    | none => currentRows
  -- `if current_rows or not segments: segments.append(...)`
  if finalRows ≠ [] ∨ segments = [] then
    segments ++ [{ rows := finalRows, label := segLabel, index := segIdx }]
  else segments

/-- Loop state of `_organize_into_sections`:
(sections, current_section_rows, section_index, section_label). -/
def sectionStep (st : List SectionData × List RowData × ℕ × String)
    (rd : RowData) : List SectionData × List RowData × ℕ × String :=
  let (sections, currentRows, secIdx, secLabel) := st
  if ¬ shouldShowRow rd then st
  else if rd.row.data_source = "Section Break" then
    if currentRows ≠ [] then
      (sections ++ [{ segments := organizeIntoSegments currentRows secLabel,
                      label := secLabel, index := secIdx }],
        [], secIdx + 1, rd.row.display_name)
    else
      (sections, currentRows, secIdx, rd.row.display_name)
  else
    (sections, currentRows ++ [rd], secIdx, secLabel)

/-- `SegmentOrganizer._organize_into_sections`. -/
def organizeIntoSections (rows : List RowData) : List SectionData :=
  let st := rows.foldl sectionStep ([], [], 0, "")
  let (sections, currentRows, secIdx, secLabel) := st
  if currentRows ≠ [] ∨ sections = [] then
    sections ++ [{ segments := organizeIntoSegments currentRows secLabel,
                   label := secLabel, index := secIdx }]
  else sections

/-- `SegmentOrganizer.__init__`: organize into sections, then pad every
section with empty segments up to the maximal segment count. -/
def mkSegmentOrganizer (rows : List RowData) : List SectionData :=
  let sections := organizeIntoSections rows
  let maxSegs := (sections.map (fun s => s.segments.length)).foldl max 0
  sections.map (fun s =>
    if s.segments.length ≥ maxSegs then s
    else { s with segments := s.segments ++
        ((List.range' s.segments.length (maxSegs - s.segments.length)).map
          (fun i => ({ index := i } : SegmentData))) })

-- ============================================================================
-- `FinancialQueryBuilder` (section "DATA COLLECTION")
-- ============================================================================

/-- One entry of the `accounts` argument of `fetch_account_balances`. -/
structure AccInfo : Type where
  name : String
  account_name : String := ""
  account_number : String := ""
deriving DecidableEq, Repr

/-- One row of the `_get_gl_movements` query result: the account plus one
net-movement column per period key (a missing key reads as `0.0` via
`row.get(period_key, 0.0)`). -/
structure GlRow : Type where
  account : String
  movements : List (String × ℚ) := []
deriving DecidableEq, Repr

/-- The answers of the external database/settings collaborators consumed by
`FinancialQueryBuilder`.  The theorems quantify over all possible answers. -/
structure LedgerDB : Type where
  /-- Accounts Settings `ignore_account_closing_balance`. -/
  ignore_account_closing_balance : Bool := false
  /-- `period_end_date` of the most recent submitted Period Closing Voucher
  strictly before the first period start; `none` when no voucher exists. -/
  last_closing_voucher : Option ℤ := none
  /-- Rows of the Account Closing Balance query (account, debit - credit). -/
  closing_balances : List (String × ℚ) := []
  /-- Rows of the `_get_gap_movements` query (account, net movement). -/
  gap_movements : List (String × ℚ) := []
  /-- Rows of the `_get_gl_movements` query. -/
  gl_movements : List GlRow := []
deriving DecidableEq, Repr

/-- `"1900-01-01"`, as a day offset from 1900-01-01. -/
def earliestDate : ℤ := 0

/-- `FinancialQueryBuilder._get_account_meta`: `self.account_meta.get(account, {})`;
missing accounts get empty metadata. -/
def mkAccountData (meta : List (String × (String × String))) (account : String) :
    AccountData :=
  match meta.lookup account with
  | some m => { account := account, account_name := m.1, account_number := m.2 }
  | none => { account := account }

/-- `FinancialQueryBuilder._get_closing_balances`: start from
`{account: 0.0 for account in account_names}` and overwrite from the query
rows. -/
def getClosingBalances (accountNames : List String) (db : LedgerDB) :
    List (String × ℚ) :=
  db.closing_balances.foldl (fun d r => dictInsert d r.1 r.2)
    (accountNames.foldl (fun d a => dictInsert d a 0) [])

/-- The loop body of `_rebase_closing_balances`: one account gets a single
first-period `PeriodValue` whose opening is the checkpoint balance plus the
gap movement and whose closing and movement are `0`. -/
def rebaseStep (firstKey : String) (meta : List (String × (String × String)))
    (gapMovements : List (String × ℚ)) (bd : List (String × AccountData))
    (p : String × ℚ) : List (String × AccountData) :=
  let gapMovement := (gapMovements.lookup p.1).getD 0
  let openingBalance := p.2 + gapMovement
  let ad := (mkAccountData meta p.1).add_period
    { period_key := firstKey, opening := openingBalance, closing := 0, movement := 0 }
  dictInsert bd p.1 ad

/-- `FinancialQueryBuilder._rebase_closing_balances`: each account of
`closingData` gets a single first-period `PeriodValue` whose opening is the
checkpoint balance plus the gap movement (fetched only when the checkpoint
is more than one day before the report start) and whose closing and
movement are `0`. -/
def rebaseClosingBalances (periods : List Period)
    (meta : List (String × (String × String))) (gapMovDB : List (String × ℚ))
    (closingData : List (String × ℚ)) (closingDate : ℤ) :
    List (String × AccountData) :=
  let firstKey := (periods.headD { key := "" }).key
  let reportStart := (periods.headD { key := "" }).from_date
  let hasGap := reportStart - closingDate > 1
  let gapMovements := if hasGap then gapMovDB else []
  closingData.foldl (rebaseStep firstKey meta gapMovements) []

/-- `FinancialQueryBuilder._get_opening_balances_from_gl`: simulate zero
closing balances at a very early date. -/
def getOpeningBalancesFromGl (periods : List Period)
    (meta : List (String × (String × String))) (db : LedgerDB)
    (accounts : List String) : List (String × AccountData) :=
  rebaseClosingBalances periods meta db.gap_movements
    (accounts.map (fun a => (a, 0))) earliestDate

/-- `FinancialQueryBuilder._get_opening_balances`. -/
def getOpeningBalances (periods : List Period)
    (meta : List (String × (String × String))) (db : LedgerDB)
    (accounts : List String) : List (String × AccountData) :=
  if db.ignore_account_closing_balance then
    getOpeningBalancesFromGl periods meta db accounts
  else
    match db.last_closing_voucher with
    | some closingDate =>
        let closingData := getClosingBalances accounts db
        if (closingData.map (fun p => p.2)).sum ≠ 0 then
          rebaseClosingBalances periods meta db.gap_movements closingData closingDate
        else getOpeningBalancesFromGl periods meta db accounts
    | none => getOpeningBalancesFromGl periods meta db accounts

/-- The per-GL-row body of `_calculate_running_balances`: start from the
first period's opening anchor (or 0) and walk the periods with
`opening[i] = closing[i-1]`, `closing[i] = opening[i] + movement[i]`. -/
def runStep (periods : List Period) (meta : List (String × (String × String)))
    (bd : List (String × AccountData)) (row : GlRow) :
    List (String × AccountData) :=
  let firstKey := (periods.headD { key := "" }).key
  let ad :=
    match bd.lookup row.account with
    | some ad => ad
    | none => mkAccountData meta row.account
  let current0 : ℚ :=
    if ad.has_periods then
      match ad.get_period firstKey with
      | some pv => pv.get_value "Opening Balance"
      | none => 0
    else 0
  let res := periods.foldl (fun (st : AccountData × ℚ) period =>
      let movement := (row.movements.lookup period.key).getD 0
      let closing := st.2 + movement
      (st.1.add_period
        { period_key := period.key, opening := st.2, closing := closing,
          movement := movement },
        closing)) (ad, current0)
  dictInsert bd row.account res.1

/-- The "Accounts with no movements" pass of `_calculate_running_balances`:
zero-fill every period key still missing on one account. -/
def zeroFillAccount (periods : List Period) (ad : AccountData) : AccountData :=
  periods.foldl (fun ad period =>
    if (ad.get_period period.key).isSome then ad
    else ad.add_period { period_key := period.key, opening := 0, closing := 0,
                         movement := 0 }) ad

/-- `FinancialQueryBuilder._calculate_running_balances`: walk the GL rows
accumulating running balances, then zero-fill every period key still
missing on any account. -/
def calculateRunningBalances (periods : List Period)
    (meta : List (String × (String × String)))
    (bd0 : List (String × AccountData)) (glData : List GlRow) :
    List (String × AccountData) :=
  let bd := glData.foldl (runStep periods meta) bd0
  -- Accounts with no movements
  bd.map (fun p => (p.1, zeroFillAccount periods p.2))

/-- The per-account body of `_handle_balance_accumulation`: three-way on the
`accumulated_values` filter. -/
def applyAccumulation (filters : Filters) (ad : AccountData) : AccountData :=
  match filters.accumulated_values with
  | none => ad
  | some true => ad.accumulate_values
  | some false => ad.unaccumulate_values

/-- `FinancialQueryBuilder._handle_balance_accumulation`. -/
def handleBalanceAccumulation (filters : Filters)
    (bd : List (String × AccountData)) : List (String × AccountData) :=
  bd.map (fun p => (p.1, applyAccumulation filters p.2))

/-- `list({acc.name for acc in accounts})`; the set's iteration order is not
specified, deduplication order is a free choice. -/
def accountNamesOf (accounts : List AccInfo) : List String :=
  (accounts.map (fun a => a.name)).dedup

/-- `self.account_meta = {acc.name: {...} for acc in accounts}`. -/
def accountMetaOf (accounts : List AccInfo) :
    List (String × (String × String)) :=
  accounts.foldl
    (fun d a => dictInsert d a.name (a.account_name, a.account_number)) []

/-- `FinancialQueryBuilder.fetch_account_balances`:
opening balances → GL movements → running totals → accumulation. -/
def fetchAccountBalances (db : LedgerDB) (filters : Filters)
    (periods : List Period) (accounts : List AccInfo) :
    List (String × AccountData) :=
  let accountNames := accountNamesOf accounts
  let meta := accountMetaOf accounts
  let balances := getOpeningBalances periods meta db accountNames
  let balances := calculateRunningBalances periods meta balances db.gl_movements
  handleBalanceAccumulation filters balances

-- ============================================================================
-- `FormulaCalculator` (section "PROCESS CALCULATIONS")
-- ============================================================================

/-- `FormulaCalculator._build_context`: bind every known reference code to its
value at the current period index (`0.0` when the vector is shorter);
codes absent from `row_data` are absent from the context (`none`), so the
external evaluator raises `NameError` for them. -/
def buildContext (row_data : List (String × List ℚ)) (i : ℕ) :
    String → Option ℚ :=
  fun code => (row_data.lookup code).map
    (fun vs => if i < vs.length then vs.getD i 0 else 0)

/-- The state of a `FormulaCalculator` plus its external collaborators:
`safeEval` is `frappe.safe_eval` (formula, context ↦ value or exception) and
`hasIssues` is the outcome of the external `CalculationFormulaValidator`. -/
structure FormulaCalcEnv : Type where
  row_data : List (String × List ℚ)
  nPeriods : ℕ
  precision : ℕ
  safeEval : String → (String → Option ℚ) → Except Unit ℚ
  hasIssues : Row → Bool

/-- `FormulaCalculator._evaluate_for_period`: any exception yields `0.0`,
success yields `flt(result * negation_factor, precision)`. -/
def evaluateForPeriod (env : FormulaCalcEnv) (formula : String) (i : ℕ)
    (negationFactor : ℤ) : ℚ :=
  match env.safeEval formula (buildContext env.row_data i) with
  | Except.error _ => 0
  | Except.ok r => fltPrec (r * negationFactor) env.precision

/-- `FormulaCalculator.evaluate_formula`: validation failure yields an
all-zero vector; otherwise each period is evaluated on its own. -/
def evaluateFormula (env : FormulaCalcEnv) (row : Row) : List ℚ :=
  let negationFactor : ℤ := if row.reverse_sign then -1 else 1
  if env.hasIssues row then List.replicate env.nPeriods 0
  else (List.range env.nPeriods).map
    (fun i => evaluateForPeriod env row.calculation_formula i negationFactor)

-- ============================================================================
-- `DependencyResolver`
-- ============================================================================

/-- `{row.reference_code: row for row in formula_rows if row.reference_code}`. -/
def buildRowMap (rows : List Row) : List (String × Row) :=
  rows.foldl (fun m r =>
    match r.reference_code with
    | some c => dictInsert m c r
    | none => m) []

/-- The inner loop of `_topological_sort` building `adj_list` / `in_degree`
for one `code`: every dependency inside the formula-row map appends `code`
to `adj_list[dep]` and increments `in_degree[code]`. -/
def addEdges (codes : List String) (code : String) :
    List String → (String → List String) × (String → ℤ) →
    (String → List String) × (String → ℤ)
  | [], st => st
  | dep :: ds, st =>
      if dep ∈ codes then
        addEdges codes code ds
          (fun d => if d = dep then st.1 d ++ [code] else st.1 d,
           fun c => if c = code then st.2 c + 1 else st.2 c)
      else addEdges codes code ds st

/-- The `adj_list` / `in_degree` construction of `_topological_sort`;
`deps` is `self.dependencies.get(code, [])`, computed by the external
`DependencyValidator`. -/
def buildGraph (codes : List String) (deps : String → List String) :
    (String → List String) × (String → ℤ) :=
  codes.foldl (fun st code => addEdges codes code (deps code) st)
    (fun _ => [], fun _ => 0)

/-- The `for neighbor in adj_list[current]` body of Kahn's loop: decrement
each neighbor's in-degree and enqueue it when the degree reaches exactly 0. -/
def decNeighbors : List String → (String → ℤ) × List String →
    (String → ℤ) × List String
  | [], st => st
  | n :: ns, st =>
      let deg2 : String → ℤ := fun c => if c = n then st.1 c - 1 else st.1 c
      let queue2 := if deg2 n = 0 then st.2 ++ [n] else st.2
      decNeighbors ns (deg2, queue2)

/-- The `while queue` loop of `_topological_sort`.  `fuel` bounds the number
of iterations; `kahnDrained` below proves that `codes.length` fuel always
drains the queue, so the loop terminates exactly as the Python loop does.
Returns (result, in_degree, queue). -/
def kahnLoop (adj : String → List String) :
    ℕ → (String → ℤ) → List String → List String →
    List String × (String → ℤ) × List String
  | 0, deg, queue, result => (result, deg, queue)
  | fuel + 1, deg, queue, result =>
      match queue with
      | [] => (result, deg, [])
      | current :: rest =>
          let st := decNeighbors (adj current) (deg, rest)
          kahnLoop adj fuel st.1 st.2 (result ++ [current])

/-- The queue phase of `_topological_sort` on the codes of the formula-row
map: build the graph, enqueue the in-degree-0 codes in insertion order, run
Kahn's loop. -/
def kahnCodes (rows : List Row) (deps : String → List String) :
    List String × (String → ℤ) × List String :=
  let codes := (buildRowMap rows).map Prod.fst
  let g := buildGraph codes deps
  let queue0 := codes.filter (fun c => g.2 c = 0)
  kahnLoop g.1 codes.length g.2 queue0 []

/-- The rows appended by the queue phase (`result.append(formula_row_map[current])`). -/
def kahnRows (rows : List Row) (deps : String → List String) : List Row :=
  (kahnCodes rows deps).1.filterMap (fun c => (buildRowMap rows).lookup c)

/-- `DependencyResolver._topological_sort`: the queue-phase rows followed by
`for row in formula_rows: if row not in result_set: result.append(row)`. -/
def topologicalSort (deps : String → List String) (formula_rows : List Row) :
    List Row :=
  let result := kahnRows formula_rows deps
  result ++ formula_rows.filter (fun r => ¬ r ∈ result)

/-- `DependencyResolver.get_processing_order`: Custom API rows, then Account
Data rows, then topologically sorted Calculated Amount rows, then the
remaining rows, all in original order within each bucket. -/
def getProcessingOrder (deps : String → List String) (rows : List Row) :
    List Row :=
  let api_rows := rows.filter (fun r => r.data_source = "Custom API")
  let account_rows := rows.filter (fun r => r.data_source = "Account Data")
  let formula_rows := rows.filter (fun r => r.data_source = "Calculated Amount")
  let other_rows := rows.filter (fun r =>
    ¬ (r.data_source = "Custom API" ∨ r.data_source = "Account Data" ∨
       r.data_source = "Calculated Amount"))
  api_rows ++ account_rows ++
    (if formula_rows ≠ [] then topologicalSort deps formula_rows else []) ++
    other_rows

-- ============================================================================
-- `RowProcessor`
-- ============================================================================

/-- The context of a `RowProcessor` plus its external collaborators:
`summary` / `account_details` come from the Data Collector, `apiCall` is
`frappe.call` for Custom API rows, `deps` is the dependency map from the
external `DependencyValidator`. -/
structure ProcEnv : Type where
  periods : List Period
  summary : List (String × List ℚ)
  account_details : List (String × List (String × AccountData))
  apiCall : Row → Except Unit (List ℚ)
  safeEval : String → (String → Option ℚ) → Except Unit ℚ
  hasIssues : Row → Bool
  precision : ℕ
  deps : String → List String

/-- `RowProcessor._process_single_row` (with the per-kind helpers inlined):
dispatch on `data_source`, record the value vector under the row's
reference code for later formula use, and return the processed row together
with the updated `row_values` dict. -/
def processSingleRow (env : ProcEnv) (rowValues : List (String × List ℚ))
    (row : Row) : RowData × List (String × List ℚ) :=
  let n := env.periods.length
  if row.data_source = "Account Data" then
    let values : List ℚ :=
      match row.reference_code with
      | some c => (env.summary.lookup c).getD (List.replicate n 0)
      | none => List.replicate n 0
    let details :=
      match row.reference_code with
      | some c => (env.account_details.lookup c).getD []
      | none => []
    let rv :=
      match row.reference_code with
      | some c => dictInsert rowValues c values
      | none => rowValues
    ({ row := row, values := values.map Val.num, account_details := details }, rv)
  else if row.data_source = "Custom API" then
    let values : List ℚ :=
      match env.apiCall row with
      | Except.ok vs => if row.reverse_sign then vs.map (fun v => -1 * v) else vs
      | Except.error _ => List.replicate n 0
    let rv :=
      match row.reference_code with
      | some c => dictInsert rowValues c values
      | none => rowValues
    ({ row := row, values := values.map Val.num }, rv)
  else if row.data_source = "Calculated Amount" then
    let fcalc : FormulaCalcEnv :=
      { row_data := rowValues, nPeriods := n, precision := env.precision,
        safeEval := env.safeEval, hasIssues := env.hasIssues }
    let values := evaluateFormula fcalc row
    let rv :=
      match row.reference_code with
      | some c => dictInsert rowValues c values
      | none => rowValues
    ({ row := row, values := values.map Val.num }, rv)
  else if row.data_source = "Blank Line" then
    ({ row := row, values := List.replicate n (Val.str "") }, rowValues)
  else if row.data_source = "Column Break" then
    ({ row := row }, rowValues)
  else if row.data_source = "Section Break" then
    ({ row := row }, rowValues)
  else
    ({ row := row, values := List.replicate n (Val.num 0) }, rowValues)

/-- `RowProcessor.process_all_rows`: process the rows in dependency order,
then restore display order with the final stable sort
`processed_rows.sort(key=lambda x: getattr(x.row, "idx", 0) or 0)`
(Python `list.sort` is stable, as is `List.mergeSort`). -/
def processAllRows (env : ProcEnv) (rows : List Row) : List RowData :=
  let order := getProcessingOrder env.deps rows
  let processed := (order.foldl
    (fun (st : List RowData × List (String × List ℚ)) row =>
      let pr := processSingleRow env st.2 row
      (st.1 ++ [pr.1], pr.2)) ([], [])).1
  processed.mergeSort (fun a b => decide (a.row.idx.getD 0 ≤ b.row.idx.getD 0))

-- ============================================================================
-- Specification-side notions used to state the resolver theorems
-- ============================================================================

/-- The invariant of Kahn's `while queue` loop in `_topological_sort`:
`deg0`/`adj` are the freshly built in-degree map and adjacency list, `deg`
the current in-degree map, `queue` the pending queue, `result` the codes
already emitted. -/
def KahnInv (codes : List String) (adj : String → List String)
    (deg0 deg : String → ℤ) (queue result : List String) : Prop :=
  (result ++ queue).Nodup ∧
  (∀ x ∈ result ++ queue, x ∈ codes) ∧
  (∀ c, deg c = deg0 c -
    ((result.map (fun d => (((adj d).count c : ℕ) : ℤ))).sum)) ∧
  (∀ c ∈ result ++ queue, deg c ≤ 0) ∧
  (∀ c ∈ codes, c ∉ result ++ queue → 1 ≤ deg c) ∧
  (∀ c ∈ queue, ∀ d ∈ codes, 0 < (adj d).count c → d ∈ result) ∧
  (∀ n c, result[n]? = some c → ∀ d ∈ codes, 0 < (adj d).count c →
    d ∈ result.take n)

/-- `d` is a dependency of `c` recognized by `_topological_sort`: `d` occurs
in `c`'s dependency list and both codes belong to the formula-row map. -/
def EdgeRel (deps : String → List String) (codes : List String)
    (d c : String) : Prop :=
  d ∈ deps c ∧ d ∈ codes ∧ c ∈ codes

/-- The bucket a row lands in inside `get_processing_order`: Custom API
first, then Account Data, then Calculated Amount, then everything else. -/
def bucketRank (r : Row) : ℕ :=
  if r.data_source = "Custom API" then 0
  else if r.data_source = "Account Data" then 1
  else if r.data_source = "Calculated Amount" then 2
  else 3

/-- The reference codes of the Calculated Amount rows of a template. -/
def formulaCodes (rows : List Row) : List String :=
  ((rows.filter (fun r => r.data_source = "Calculated Amount")).filterMap
    (fun r => r.reference_code))

-- ============================================================================
-- Concrete instances used by witnesses and counterexamples
-- ============================================================================

/-- C1 failing input: one period starting at day 1000. -/
def exC1periods : List Period := [{ key := "p1", from_date := 1000, to_date := 1030 }]

/-- C1 failing input: a checkpoint voucher the day before the report start,
whose closing balance for account `A` is 100, and no GL rows at all. -/
def exC1db : LedgerDB :=
  { last_closing_voucher := some 999, closing_balances := [("A", 100)] }

/-- C1 failing input: the single requested account. -/
def exC1accounts : List AccInfo := [{ name := "A" }]

/-- C2: filters with all required keys and the unsupported view "Margin". -/
def exC2filters : Filters :=
  { report_template := some "T", period_start_date := some "2024-01-01",
    period_end_date := some "2024-12-31", selected_view := some "Margin" }

/-- C2: a sample formatted row. -/
def exC2row : FRow := { vals := [some 10, some 20] }

/-- C3: row with the absolute values of the spec example. -/
def exC3vals : List (Option ℚ) := [some 100, some 200, some 0, some (-50)]

/-- C4/C5: two mutually referencing formula rows. -/
def exRowA : Row :=
  { idx := some 1, reference_code := some "A", data_source := "Calculated Amount",
    calculation_formula := "B + 1" }

/-- C4/C5: second formula row. -/
def exRowB : Row :=
  { idx := some 2, reference_code := some "B", data_source := "Calculated Amount",
    calculation_formula := "A + 1" }

/-- C4: the cyclic dependency map A → B → A. -/
def exDepsCyclic : String → List String :=
  fun c => if c = "A" then ["B"] else if c = "B" then ["A"] else []

/-- C5/C9: acyclic dependencies: A depends on B. -/
def exDepsAcyclic : String → List String :=
  fun c => if c = "A" then ["B"] else []

/-- C5/C9: an Account Data row. -/
def exRowAcc : Row :=
  { idx := some 3, reference_code := some "C", data_source := "Account Data" }

/-- C6: a database answer with data for an unrelated account only. -/
def exC6db : LedgerDB :=
  { last_closing_voucher := some 999, closing_balances := [("B", 7)],
    gl_movements := [{ account := "B", movements := [("p1", 3)] }] }

/-- C7: an evaluation environment whose external evaluator always raises. -/
def exC7env : FormulaCalcEnv :=
  { row_data := [("A", [1, 2])], nPeriods := 2, precision := 2,
    safeEval := fun _ _ => Except.error (), hasIssues := fun _ => false }

/-- C7: an evaluation environment whose external evaluator returns 1.234. -/
def exC7envOk : FormulaCalcEnv :=
  { row_data := [("A", [1, 2])], nPeriods := 2, precision := 2,
    safeEval := fun _ _ => Except.ok (1234 / 1000), hasIssues := fun _ => false }

/-- C7: a formula row with `reverse_sign` set. -/
def exC7row : Row :=
  { data_source := "Calculated Amount", calculation_formula := "A / 0",
    reverse_sign := true }

/-- C8/C10: a visible Account Data row. -/
def exRdAcc : RowData :=
  { row := { data_source := "Account Data", display_name := "X" },
    values := [Val.num 5] }

/-- C8/C10: a Blank Line row with both hiding flags set and no significant
values. -/
def exRdBlank : RowData :=
  { row := { data_source := "Blank Line", hidden_calculation := true,
             hide_when_empty := true },
    values := [Val.str ""] }

/-- C9: a processing environment with two periods and no external data. -/
def exC9env : ProcEnv :=
  { periods := [{ key := "p1" }, { key := "p2" }],
    summary := [("C", [10, 20])], account_details := [],
    apiCall := fun _ => Except.error (), safeEval := fun _ _ => Except.error (),
    hasIssues := fun _ => false, precision := 2, deps := exDepsAcyclic }

-- ============================================================================
-- THEOREMS
-- ============================================================================

-- ---------------------------------------------------------------------------
-- Association-list (Python dict) lemmas
-- ---------------------------------------------------------------------------

theorem lookup_not_mem_keys {α β : Type} [DecidableEq α]
    (d : List (α × β)) (k : α) (h : ∀ p ∈ d, p.1 ≠ k) : d.lookup k = none := by
  induction d with
  | nil => simp
  | cons p t ih =>
    rcases p with ⟨a, b⟩
    simp only [List.lookup_cons]
    have hka : ¬ k = a := fun hk => h (a, b) (by simp) (by simp [hk])
    rw [beq_false_of_ne hka]
    show t.lookup k = none
    exact ih (fun q hq => h q (List.mem_cons_of_mem _ hq))

theorem lookup_map_overwrite {α β : Type} [DecidableEq α]
    (d : List (α × β)) (k k' : α) (v : β) (hk : k' ≠ k) :
    (d.map (fun p => if p.1 = k then (k, v) else p)).lookup k' = d.lookup k' := by
  induction d with
  | nil => simp
  | cons p t ih =>
    rcases p with ⟨a, b⟩
    simp only [List.map_cons]
    by_cases ha : a = k
    · rw [if_pos (by simpa using ha)]
      simp only [List.lookup_cons]
      rw [beq_false_of_ne hk, beq_false_of_ne (show k' ≠ a by rw [ha]; exact hk)]
      exact ih
    · rw [if_neg (by simpa using ha)]
      simp only [List.lookup_cons]
      cases hb : (k' == a) with
      | true => simp
      | false => simp only [cond_false]; exact ih

theorem lookup_map_overwrite_self {α β : Type} [DecidableEq α]
    (d : List (α × β)) (k : α) (v : β) (h : ∃ p ∈ d, p.1 = k) :
    (d.map (fun p => if p.1 = k then (k, v) else p)).lookup k = some v := by
  induction d with
  | nil => simp at h
  | cons p t ih =>
    rcases p with ⟨a, b⟩
    simp only [List.map_cons]
    by_cases ha : a = k
    · rw [if_pos (by simpa using ha)]
      simp [List.lookup_cons]
    · rw [if_neg (by simpa using ha)]
      simp only [List.lookup_cons]
      rw [beq_false_of_ne (fun hk : k = a => ha (hk ▸ rfl))]
      show List.lookup k (t.map (fun p => if p.1 = k then (k, v) else p)) = some v
      apply ih
      rcases h with ⟨q, hq, hqk⟩
      rcases List.mem_cons.mp hq with h1 | h2
      · exact absurd (by rw [h1] at hqk; simpa using hqk) ha
      · exact ⟨q, h2, hqk⟩

/-- Characterization of `dictInsert`: lookup of the written key yields the
new value, every other key is unaffected. -/
theorem lookup_dictInsert {α β : Type} [DecidableEq α]
    (d : List (α × β)) (k k' : α) (v : β) :
    (dictInsert d k v).lookup k' =
      if k' = k then some v else d.lookup k' := by
  unfold dictInsert
  by_cases h : d.any (fun p => decide (p.1 = k)) = true
  · rw [if_pos h]
    by_cases hk : k' = k
    · subst hk
      rw [if_pos rfl]
      apply lookup_map_overwrite_self
      rcases List.any_eq_true.mp h with ⟨p, hp, hpk⟩
      exact ⟨p, hp, of_decide_eq_true hpk⟩
    · rw [if_neg hk]
      exact lookup_map_overwrite d k k' v hk
  · rw [if_neg h]
    have hnone : ∀ p ∈ d, p.1 ≠ k := by
      intro p hp hpk
      exact h (List.any_eq_true.mpr ⟨p, hp, decide_eq_true hpk⟩)
    rw [List.lookup_append]
    by_cases hk : k' = k
    · subst hk
      rw [lookup_not_mem_keys d k' hnone, if_pos rfl]
      simp [List.lookup_cons]
    · rw [if_neg hk]
      have : List.lookup k' [(k, v)] = none := by
        simp only [List.lookup_cons]
        rw [beq_false_of_ne hk]
        rfl
      rw [this]
      cases d.lookup k' <;> rfl

/-- `dictInsert` only grows the key set: an existing binding stays bound. -/
theorem lookup_dictInsert_isSome {α β : Type} [DecidableEq α]
    (d : List (α × β)) (k k' : α) (v : β) (h : (d.lookup k').isSome) :
    ((dictInsert d k v).lookup k').isSome := by
  rw [lookup_dictInsert]
  by_cases hk : k' = k
  · simp [hk]
  · simpa [hk] using h

/-- Looking up in an association list whose values were rewritten pointwise. -/
theorem lookup_map_values {α β γ : Type} [DecidableEq α]
    (d : List (α × β)) (f : α × β → γ) (k : α) :
    (d.map (fun p => (p.1, f p))).lookup k = (d.find? (fun p => k == p.1)).map f := by
  induction d with
  | nil => simp
  | cons p t ih =>
    rcases p with ⟨a, b⟩
    simp only [List.map_cons, List.lookup_cons, List.find?]
    cases hb : (k == a) with
    | true => simp
    | false => simpa using ih

-- ---------------------------------------------------------------------------
-- Option-monad `mapM` characterization
-- ---------------------------------------------------------------------------

theorem mapM_option_cons {α β : Type} (f : α → Option β) (a : α) (l : List α) :
    (a :: l).mapM f =
      (f a).bind (fun b => (l.mapM f).bind (fun t => some (b :: t))) := by
  rw [← List.mapM'_eq_mapM, ← List.mapM'_eq_mapM]
  rfl

theorem mapM_option_getD {α β : Type} (f : α → Option β) (dflt : α) (dflt2 : β)
    (l : List α) :
    ∀ (out : List β), l.mapM f = some out →
      out.length = l.length ∧
      ∀ i, i < l.length → f (l.getD i dflt) = some (out.getD i dflt2) := by
  induction l with
  | nil =>
    intro out h
    rw [← List.mapM'_eq_mapM] at h
    simp only [List.mapM'] at h
    cases h
    simp
  | cons a l ih =>
    intro out h
    rw [mapM_option_cons] at h
    cases hfa : f a with
    | none => rw [hfa] at h; simp at h
    | some b =>
      rw [hfa] at h
      cases hml : l.mapM f with
      | none => rw [hml] at h; simp at h
      | some t =>
        rw [hml] at h
        simp only [Option.some_bind] at h
        cases h
        obtain ⟨ihlen, ihget⟩ := ih t hml
        refine ⟨by simp [ihlen], ?_⟩
        intro i hi
        cases i with
        | zero => simpa using hfa
        | succ j =>
          simp only [List.getD_cons_succ]
          exact ihget j (by simpa using hi)

-- ---------------------------------------------------------------------------
-- C10: Blank Line rows always pass the visibility filter
-- ---------------------------------------------------------------------------

/-- C10: for every row whose `data_source` is `"Blank Line"`, the visibility
filter `_should_show_row` returns true, regardless of `hidden_calculation`,
`hide_when_empty`, or the row's values: the Blank Line check takes
precedence over both hiding flags. -/
theorem C10_blank_line_visible (rd : RowData)
    (h : rd.row.data_source = "Blank Line") : shouldShowRow rd = true := by
  simp [shouldShowRow, h]

/-- Witness for C10 at a Blank Line row with both hiding flags set and no
significant values. -/
theorem C10_blank_line_visible_witness :
    exRdBlank.row.data_source = "Blank Line" ∧ shouldShowRow exRdBlank = true :=
  ⟨rfl, C10_blank_line_visible exRdBlank rfl⟩

-- ---------------------------------------------------------------------------
-- C2: unsupported `selected_view` warns but does not abort
-- ---------------------------------------------------------------------------

/-- C2 counterexample: with all required filters present and
`selected_view = "Margin"` (neither "Report" nor "Growth"),
`_validate_filters` does not raise: it returns normally with a
`msgprint` warning, so `execute` continues and produces its full result
(refuting "aborts the whole execution ... no partial result"). -/
theorem C2_unsupported_view_counterexample :
    validateFilters exC2filters =
      Except.ok ["Margin view is currently unsupported in Custom Financial Report."] ∧
    applyViewTransformation exC2filters.selected_view [exC2row] = some [exC2row] :=
  ⟨rfl, rfl⟩

/-- C2 amended: if the filters contain all required keys and a
`selected_view` that is neither "Report" nor "Growth", validation emits a
user-visible warning naming the view and returns normally (no abort), and
the view-transformation stage leaves the formatted rows unchanged
(the report is produced as in the default "Report" view). -/
theorem C2_unsupported_view_amended (f : Filters) (v : String)
    (rows : List FRow)
    (h1 : f.report_template.isSome) (h2 : f.period_start_date.isSome)
    (h3 : f.period_end_date.isSome) (hv : f.selected_view = some v)
    (hvr : v ≠ "Report") (hvg : v ≠ "Growth") :
    (∃ ws, validateFilters f = Except.ok ws ∧
      (v ++ " view is currently unsupported in Custom Financial Report.") ∈ ws) ∧
    applyViewTransformation f.selected_view rows = some rows := by
  obtain ⟨x1, hx1⟩ := Option.isSome_iff_exists.mp h1
  obtain ⟨x2, hx2⟩ := Option.isSome_iff_exists.mp h2
  obtain ⟨x3, hx3⟩ := Option.isSome_iff_exists.mp h3
  have hval : validateFilters f = Except.ok
      ((if f.presentation_currency.isSome then
          ["Currency filters are currently unsupported in Custom Financial Report."]
        else []) ++
        [v ++ " view is currently unsupported in Custom Financial Report."]) := by
    unfold validateFilters
    rw [hx1, hx2, hx3, hv]
    simp only [Option.isNone_some, Bool.false_eq_true, if_false]
    rw [if_neg (show ¬ (v = "Report" ∨ v = "Growth") by simp [hvr, hvg])]
  refine ⟨⟨_, hval, by simp⟩, ?_⟩
  unfold applyViewTransformation
  rw [hv, if_neg (by simpa using hvg)]

/-- Witness for C2's amended statement at the concrete "Margin" filters. -/
theorem C2_unsupported_view_amended_witness :
    (∃ ws, validateFilters exC2filters = Except.ok ws ∧
      ("Margin view is currently unsupported in Custom Financial Report.") ∈ ws) ∧
    applyViewTransformation exC2filters.selected_view [exC2row] = some [exC2row] :=
  C2_unsupported_view_amended exC2filters "Margin" [exC2row] rfl rfl rfl rfl
    (by decide) (by decide)

-- ---------------------------------------------------------------------------
-- C3: the Growth view transform
-- ---------------------------------------------------------------------------

theorem calculateGrowth_some (p c : ℚ) :
    calculateGrowth (some p) (some c) =
      if p = 0 ∧ 0 < c then some (some 100)
      else if p = 0 ∧ c ≤ 0 then some (some 0)
      else some (some (flt2 (((c - p) / |p|) * 100))) := rfl

theorem calculateGrowth_none_current (prev : Option ℚ) :
    calculateGrowth prev none = some none := by
  cases prev <;> rfl

theorem transformRow_example :
    transformRow exC3vals = some [some 100, some 100, some (-100), some 0] := by
  unfold transformRow
  rw [show List.range exC3vals.length = [0, 1, 2, 3] from by decide,
    ← List.mapM'_eq_mapM]
  norm_num [List.mapM', exC3vals, calculateGrowth, flt2, fltPrec, round_eq]

theorem growthTransform_example :
    growthTransform [{ vals := exC3vals }] =
      some [{ vals := [some 100, some 100, some (-100), some 0] }] := by
  unfold growthTransform
  rw [← List.mapM'_eq_mapM]
  norm_num [List.mapM', transformRow_example]

/-- C3: the Growth transform leaves period 0 untouched; for every period
`i > 0` it maps the original (not yet transformed) pair (previous, current)
by: `current = None ↦ None`; `previous = 0, current > 0 ↦ 100.0`;
`previous = 0, current ≤ 0 ↦ 0.0`; otherwise
`round(((current - previous) / abs(previous)) * 100, 2)`.  In particular the
absolute value row `[100, 200, 0, -50]` becomes `[100, 100.0, -100.0, 0.0]`. -/
theorem C3_growth_transform (vals out : List (Option ℚ)) (i : ℕ) (p c : ℚ)
    (h : transformRow vals = some out) (h0 : 0 < i) (hi : i < vals.length) :
    out.length = vals.length ∧
    out.getD 0 none = vals.getD 0 none ∧
    (vals.getD i none = none → out.getD i none = none) ∧
    (vals.getD (i - 1) none = some 0 → vals.getD i none = some c → 0 < c →
      out.getD i none = some 100) ∧
    (vals.getD (i - 1) none = some 0 → vals.getD i none = some c → c ≤ 0 →
      out.getD i none = some 0) ∧
    (vals.getD (i - 1) none = some p → p ≠ 0 → vals.getD i none = some c →
      out.getD i none = some (flt2 (((c - p) / |p|) * 100))) ∧
    growthTransform [{ vals := exC3vals }] =
      some [{ vals := [some 100, some 100, some (-100), some 0] }] := by
  obtain ⟨hlen, hpt⟩ :=
    mapM_option_getD
      (fun j => if j = 0 then some (vals.getD 0 none)
        else calculateGrowth (vals.getD (j - 1) none) (vals.getD j none))
      0 none (List.range vals.length) out h
  have hrange : ∀ j, j < vals.length → (List.range vals.length).getD j 0 = j := by
    intro j hj
    rw [List.getD_eq_getElem?_getD, List.getElem?_range hj]
    rfl
  have hlen2 : out.length = vals.length := by simpa using hlen
  have hat : ∀ j, j < vals.length →
      (if j = 0 then some (vals.getD 0 none)
        else calculateGrowth (vals.getD (j - 1) none) (vals.getD j none)) =
      some (out.getD j none) := by
    intro j hj
    have hj2 := hpt j (by simpa using hj)
    rwa [hrange j hj] at hj2
  have hgrow : calculateGrowth (vals.getD (i - 1) none) (vals.getD i none) =
      some (out.getD i none) := by
    have hi2 := hat i hi
    rwa [if_neg (Nat.pos_iff_ne_zero.mp h0)] at hi2
  refine ⟨hlen2, ?_, ?_, ?_, ?_, ?_, growthTransform_example⟩
  · rcases Nat.eq_zero_or_pos vals.length with hz | hpos
    · have hv0 : vals = [] := List.length_eq_zero.mp hz
      have ho0 : out = [] := List.length_eq_zero.mp (by rw [hlen2, hz])
      rw [hv0, ho0]
    · have h00 := hat 0 hpos
      rw [if_pos rfl] at h00
      exact (Option.some_inj.mp h00).symm
  · intro hcur
    rw [hcur, calculateGrowth_none_current] at hgrow
    exact (Option.some_inj.mp hgrow).symm
  · intro hprev hcur hcpos
    rw [hprev, hcur, calculateGrowth_some] at hgrow
    rw [if_pos ⟨rfl, hcpos⟩] at hgrow
    exact (Option.some_inj.mp hgrow).symm
  · intro hprev hcur hcneg
    rw [hprev, hcur, calculateGrowth_some] at hgrow
    by_cases hcz : (0 : ℚ) < c
    · exact absurd hcneg (not_le.mpr hcz)
    · rw [if_neg (fun hand => hcz hand.2), if_pos ⟨rfl, hcneg⟩] at hgrow
      exact (Option.some_inj.mp hgrow).symm
  · intro hprev hpne hcur
    rw [hprev, hcur, calculateGrowth_some] at hgrow
    rw [if_neg (fun hand => hpne hand.1), if_neg (fun hand => hpne hand.1)] at hgrow
    exact (Option.some_inj.mp hgrow).symm

/-- Witness for C3 at the spec's concrete example row. -/
theorem C3_growth_transform_witness :
    transformRow exC3vals = some [some 100, some 100, some (-100), some 0] ∧
    (0 : ℕ) < 3 ∧ (3 : ℕ) < exC3vals.length ∧
    ([some 100, some 100, some (-100), some 0] : List (Option ℚ)).getD 3 none =
      some 0 :=
  ⟨transformRow_example, by decide, by decide,
    (C3_growth_transform exC3vals [some 100, some 100, some (-100), some 0]
      3 200 (-50) transformRow_example (by decide) (by decide)).2.2.2.2.1
      rfl rfl (by norm_num)⟩

-- ---------------------------------------------------------------------------
-- C7: per-period formula evaluation isolation
-- ---------------------------------------------------------------------------

/-- C7: when a Calculated Amount formula is evaluated (validation passing),
each period is evaluated independently; an exception in one period makes
exactly that period's result `0.0`, and a successful period yields the
value multiplied by −1 when `reverse_sign` is set, rounded to the
configured currency precision. -/
theorem C7_formula_isolation (env : FormulaCalcEnv) (row : Row) (i : ℕ) (v : ℚ)
    (hi : i < env.nPeriods) (hval : env.hasIssues row = false) :
    (evaluateFormula env row).length = env.nPeriods ∧
    (evaluateFormula env row).getD i 0 =
      evaluateForPeriod env row.calculation_formula i
        (if row.reverse_sign then -1 else 1) ∧
    (env.safeEval row.calculation_formula (buildContext env.row_data i) =
        Except.error () → (evaluateFormula env row).getD i 0 = 0) ∧
    (env.safeEval row.calculation_formula (buildContext env.row_data i) =
        Except.ok v → (evaluateFormula env row).getD i 0 =
          fltPrec (v * ((if row.reverse_sign then (-1 : ℤ) else 1) : ℚ))
            env.precision) := by
  have hform : evaluateFormula env row =
      (List.range env.nPeriods).map
        (fun j => evaluateForPeriod env row.calculation_formula j
          (if row.reverse_sign then -1 else 1)) := by
    unfold evaluateFormula
    rw [hval]
    simp
  have hget : (evaluateFormula env row).getD i 0 =
      evaluateForPeriod env row.calculation_formula i
        (if row.reverse_sign then -1 else 1) := by
    rw [hform, List.getD_eq_getElem?_getD, List.getElem?_map,
      List.getElem?_range hi]
    rfl
  refine ⟨by rw [hform]; simp, hget, ?_, ?_⟩
  · intro herr
    rw [hget]
    unfold evaluateForPeriod
    rw [herr]
  · intro hok
    rw [hget]
    unfold evaluateForPeriod
    rw [hok]
    by_cases hrs : row.reverse_sign <;> simp [hrs]

/-- Witness for C7: the always-raising evaluator yields 0.0 for period 0. -/
theorem C7_formula_isolation_witness :
    (0 : ℕ) < exC7env.nPeriods ∧ exC7env.hasIssues exC7row = false ∧
    (evaluateFormula exC7env exC7row).getD 0 0 = 0 :=
  ⟨by decide, rfl,
    (C7_formula_isolation exC7env exC7row 0 0 (by decide) rfl).2.2.1 rfl⟩

-- ---------------------------------------------------------------------------
-- C8: no breaks, all rows visible ⇒ one section, one segment
-- ---------------------------------------------------------------------------

theorem segStep_no_break (segs : List SegmentData) (cur : List RowData) (i : ℕ)
    (lbl : String) (hdr : Option RowData) (rd : RowData)
    (h : rd.row.data_source ≠ "Column Break") :
    segStep (segs, cur, i, lbl, hdr) rd = (segs, cur ++ [rd], i, lbl, hdr) := by
  unfold segStep
  simp [h]

theorem segFold_no_break (rows : List RowData)
    (h : ∀ rd ∈ rows, rd.row.data_source ≠ "Column Break")
    (segs : List SegmentData) (cur : List RowData) (i : ℕ) (lbl : String)
    (hdr : Option RowData) :
    rows.foldl segStep (segs, cur, i, lbl, hdr) = (segs, cur ++ rows, i, lbl, hdr) := by
  induction rows generalizing cur with
  | nil => simp
  | cons a t ih =>
    rw [List.foldl_cons, segStep_no_break segs cur i lbl hdr a (h a (by simp)),
      ih (fun rd hrd => h rd (List.mem_cons_of_mem a hrd)) (cur ++ [a])]
    simp

theorem organizeIntoSegments_no_break (rows : List RowData)
    (h : ∀ rd ∈ rows, rd.row.data_source ≠ "Column Break") :
    organizeIntoSegments rows "" = [{ rows := rows, label := "", index := 0 }] := by
  unfold organizeIntoSegments
  simp [segFold_no_break rows h]

theorem sectionStep_plain (secs : List SectionData) (cur : List RowData)
    (i : ℕ) (lbl : String) (rd : RowData)
    (hshow : shouldShowRow rd = true)
    (hns : rd.row.data_source ≠ "Section Break") :
    sectionStep (secs, cur, i, lbl) rd = (secs, cur ++ [rd], i, lbl) := by
  unfold sectionStep
  simp [hshow, hns]

theorem sectionFold_plain (rows : List RowData)
    (hshow : ∀ rd ∈ rows, shouldShowRow rd = true)
    (hns : ∀ rd ∈ rows, rd.row.data_source ≠ "Section Break")
    (secs : List SectionData) (cur : List RowData) (i : ℕ) (lbl : String) :
    rows.foldl sectionStep (secs, cur, i, lbl) = (secs, cur ++ rows, i, lbl) := by
  induction rows generalizing cur with
  | nil => simp
  | cons a t ih =>
    rw [List.foldl_cons,
      sectionStep_plain secs cur i lbl a (hshow a (by simp)) (hns a (by simp)),
      ih (fun rd hrd => hshow rd (List.mem_cons_of_mem a hrd))
        (fun rd hrd => hns rd (List.mem_cons_of_mem a hrd)) (cur ++ [a])]
    simp

theorem organizeIntoSections_plain (rows : List RowData)
    (hshow : ∀ rd ∈ rows, shouldShowRow rd = true)
    (hns : ∀ rd ∈ rows, rd.row.data_source ≠ "Section Break")
    (hnc : ∀ rd ∈ rows, rd.row.data_source ≠ "Column Break") :
    organizeIntoSections rows =
      [{ segments := [{ rows := rows, label := "", index := 0 }],
         label := "", index := 0 }] := by
  unfold organizeIntoSections
  simp [sectionFold_plain rows hshow hns, organizeIntoSegments_no_break rows hnc]

/-- C8: a processed-row stream with no Section Break and no Column Break rows,
all of whose rows pass the visibility filter, is organized into exactly one
Section containing exactly one Segment whose rows are the input rows in
their original order. -/
theorem C8_single_section_segment (rows : List RowData)
    (hshow : ∀ rd ∈ rows, shouldShowRow rd = true)
    (hns : ∀ rd ∈ rows, rd.row.data_source ≠ "Section Break")
    (hnc : ∀ rd ∈ rows, rd.row.data_source ≠ "Column Break") :
    mkSegmentOrganizer rows =
      [{ segments := [{ rows := rows, label := "", index := 0 }],
         label := "", index := 0 }] := by
  unfold mkSegmentOrganizer
  simp [organizeIntoSections_plain rows hshow hns hnc]

/-- Witness for C8 at a two-row stream with no breaks. -/
theorem C8_single_section_segment_witness :
    mkSegmentOrganizer [exRdAcc, exRdBlank] =
      [{ segments := [{ rows := [exRdAcc, exRdBlank], label := "", index := 0 }],
         label := "", index := 0 }] :=
  C8_single_section_segment [exRdAcc, exRdBlank]
    (by
      intro rd hrd
      rcases List.mem_cons.mp hrd with rfl | hrd2
      · simp [shouldShowRow, exRdAcc]
      · rw [List.mem_singleton.mp hrd2]
        simp [shouldShowRow, exRdBlank])
    (by
      intro rd hrd
      rcases List.mem_cons.mp hrd with rfl | hrd2
      · simp [exRdAcc]
      · rw [List.mem_singleton.mp hrd2]
        simp [exRdBlank])
    (by
      intro rd hrd
      rcases List.mem_cons.mp hrd with rfl | hrd2
      · simp [exRdAcc]
      · rw [List.mem_singleton.mp hrd2]
        simp [exRdBlank])

-- ---------------------------------------------------------------------------
-- C6: the Balance Collector always produces a complete, zero-filled grid
-- ---------------------------------------------------------------------------

theorem lookup_map_snd {α β γ : Type} [DecidableEq α]
    (d : List (α × β)) (g : β → γ) (k : α) :
    (d.map (fun p => (p.1, g p.2))).lookup k = (d.lookup k).map g := by
  induction d with
  | nil => simp
  | cons p t ih =>
    rcases p with ⟨a, b⟩
    simp only [List.map_cons, List.lookup_cons]
    cases hb : (k == a) with
    | true => simp
    | false => simpa using ih

theorem lookup_isSome_exists {α β : Type} [DecidableEq α]
    (d : List (α × β)) (k : α) (h : (d.lookup k).isSome) : ∃ p ∈ d, p.1 = k := by
  induction d with
  | nil => simp at h
  | cons p t ih =>
    rcases p with ⟨a, b⟩
    by_cases hk : k = a
    · exact ⟨(a, b), by simp, hk.symm⟩
    · simp only [List.lookup_cons, beq_false_of_ne hk] at h
      obtain ⟨q, hq, hqk⟩ := ih h
      exact ⟨q, List.mem_cons_of_mem _ hq, hqk⟩

/-- Membership in `dictInsert`: every pair is either an untouched original
pair (with a different key) or the freshly written pair. -/
theorem mem_dictInsert {α β : Type} [DecidableEq α]
    (d : List (α × β)) (k : α) (v : β) (q : α × β) (hq : q ∈ dictInsert d k v) :
    (q ∈ d ∧ q.1 ≠ k) ∨ q = (k, v) := by
  unfold dictInsert at hq
  by_cases h : d.any (fun p => decide (p.1 = k)) = true
  · rw [if_pos h] at hq
    obtain ⟨p, hp, hpq⟩ := List.mem_map.mp hq
    by_cases hpk : p.1 = k
    · right; rw [← hpq, if_pos hpk]
    · left
      rw [← hpq, if_neg hpk]
      exact ⟨hp, hpk⟩
  · rw [if_neg h] at hq
    rcases List.mem_append.mp hq with h1 | h2
    · left
      refine ⟨h1, fun hqk => ?_⟩
      exact h (List.any_eq_true.mpr ⟨q, h1, decide_eq_true hqk⟩)
    · right; simpa using h2

theorem zeroInit_lookup (names : List String) (init : List (String × ℚ))
    (a : String) :
    ((names.foldl (fun d x => dictInsert d x (0 : ℚ)) init).lookup a) =
      if a ∈ names then some 0 else init.lookup a := by
  induction names generalizing init with
  | nil => simp
  | cons x xs ih =>
    rw [List.foldl_cons, ih]
    by_cases hx : a ∈ xs
    · simp [hx]
    · by_cases hax : a = x
      · simp only [hx, if_false]
        rw [lookup_dictInsert, if_pos hax]
        simp [hax]
      · simp only [hx, if_false]
        rw [lookup_dictInsert, if_neg hax]
        simp [List.mem_cons, hax, hx]

theorem rowsFold_lookup_of_not_mem {β : Type} (rows : List (String × β))
    (init : List (String × β)) (a : String) (h : ∀ r ∈ rows, r.1 ≠ a) :
    ((rows.foldl (fun d r => dictInsert d r.1 r.2) init).lookup a) =
      init.lookup a := by
  induction rows generalizing init with
  | nil => simp
  | cons r t ih =>
    rw [List.foldl_cons, ih _ (fun q hq => h q (List.mem_cons_of_mem _ hq)),
      lookup_dictInsert, if_neg (fun hra => h r (by simp) hra.symm)]

theorem rowsFold_isSome {β : Type} (rows : List (String × β))
    (init : List (String × β)) (a : String) (h : (init.lookup a).isSome) :
    ((rows.foldl (fun d r => dictInsert d r.1 r.2) init).lookup a).isSome := by
  induction rows generalizing init with
  | nil => simpa using h
  | cons r t ih =>
    rw [List.foldl_cons]
    exact ih _ (lookup_dictInsert_isSome _ _ _ _ h)

theorem getClosingBalances_isSome (names : List String) (db : LedgerDB)
    (a : String) (ha : a ∈ names) :
    ((getClosingBalances names db).lookup a).isSome := by
  unfold getClosingBalances
  apply rowsFold_isSome
  rw [zeroInit_lookup]
  simp [ha]

theorem getClosingBalances_zero (names : List String) (db : LedgerDB)
    (a : String) (ha : a ∈ names)
    (h : ∀ r ∈ db.closing_balances, r.1 ≠ a) :
    (getClosingBalances names db).lookup a = some 0 := by
  unfold getClosingBalances
  rw [rowsFold_lookup_of_not_mem _ _ _ h, zeroInit_lookup]
  simp [ha]

theorem getClosingBalances_pairs_zero (names : List String) (db : LedgerDB)
    (a : String) (h : ∀ r ∈ db.closing_balances, r.1 ≠ a) :
    ∀ q ∈ getClosingBalances names db, q.1 = a → q.2 = 0 := by
  unfold getClosingBalances
  have hinit : ∀ (ns : List String) (init : List (String × ℚ)),
      (∀ q ∈ init, q.1 = a → q.2 = 0) →
      ∀ q ∈ ns.foldl (fun d x => dictInsert d x (0 : ℚ)) init,
        q.1 = a → q.2 = 0 := by
    intro ns
    induction ns with
    | nil => intro init hi q hq; exact hi q hq
    | cons x xs ih =>
      intro init hi q hq
      rw [List.foldl_cons] at hq
      refine ih _ ?_ q hq
      intro q2 hq2 hq2a
      rcases mem_dictInsert _ _ _ _ hq2 with ⟨hq2d, _⟩ | hq2v
      · exact hi q2 hq2d hq2a
      · rw [hq2v]
  have hrows : ∀ (rows : List (String × ℚ)) (init : List (String × ℚ)),
      (∀ r ∈ rows, r.1 ≠ a) → (∀ q ∈ init, q.1 = a → q.2 = 0) →
      ∀ q ∈ rows.foldl (fun d r => dictInsert d r.1 r.2) init,
        q.1 = a → q.2 = 0 := by
    intro rows
    induction rows with
    | nil => intro init _ hi q hq; exact hi q hq
    | cons r t ih =>
      intro init hr hi q hq
      rw [List.foldl_cons] at hq
      refine ih _ (fun r2 hr2 => hr r2 (List.mem_cons_of_mem _ hr2)) ?_ q hq
      intro q2 hq2 hq2a
      rcases mem_dictInsert _ _ _ _ hq2 with ⟨hq2d, _⟩ | hq2v
      · exact hi q2 hq2d hq2a
      · exact absurd (by rw [hq2v] at hq2a; exact hq2a) (hr r (by simp))
  exact hrows _ _ h (hinit names [] (by simp))

theorem rebaseFold_isSome (firstKey : String)
    (meta : List (String × (String × String))) (gap : List (String × ℚ))
    (cd : List (String × ℚ)) (init : List (String × AccountData)) (a : String)
    (h : (init.lookup a).isSome ∨ ∃ p ∈ cd, p.1 = a) :
    ((cd.foldl (rebaseStep firstKey meta gap) init).lookup a).isSome := by
  induction cd generalizing init with
  | nil =>
    rcases h with h1 | h2
    · simpa using h1
    · simp at h2
  | cons p t ih =>
    rw [List.foldl_cons]
    apply ih
    rcases h with h1 | h2
    · exact Or.inl (lookup_dictInsert_isSome _ _ _ _ h1)
    · obtain ⟨q, hq, hqa⟩ := h2
      rcases List.mem_cons.mp hq with rfl | hqt
      · left
        unfold rebaseStep
        rw [lookup_dictInsert, if_pos hqa.symm]
        rfl
      · exact Or.inr ⟨q, hqt, hqa⟩

theorem rebaseFold_zero_inv (firstKey : String)
    (meta : List (String × (String × String))) (gap : List (String × ℚ))
    (cd : List (String × ℚ)) (init : List (String × AccountData)) (a : String)
    (hgap : gap.lookup a = none)
    (hcd : ∀ p ∈ cd, p.1 = a → p.2 = 0)
    (hinit : init.lookup a = none ∨
      init.lookup a = some ((mkAccountData meta a).add_period
        { period_key := firstKey, opening := 0, closing := 0, movement := 0 })) :
    (cd.foldl (rebaseStep firstKey meta gap) init).lookup a = none ∨
    (cd.foldl (rebaseStep firstKey meta gap) init).lookup a =
      some ((mkAccountData meta a).add_period
        { period_key := firstKey, opening := 0, closing := 0, movement := 0 }) := by
  induction cd generalizing init with
  | nil => simpa using hinit
  | cons p t ih =>
    rw [List.foldl_cons]
    refine ih _ (fun q hq hqa => hcd q (List.mem_cons_of_mem _ hq) hqa) ?_
    unfold rebaseStep
    rw [lookup_dictInsert]
    by_cases hpa : a = p.1
    · rw [if_pos hpa]
      right
      have hp2 : p.2 = 0 := hcd p (by simp) hpa.symm
      rw [← hpa, hp2, hgap]
      norm_num
    · rw [if_neg hpa]
      exact hinit

theorem runFold_isSome (periods : List Period)
    (meta : List (String × (String × String))) (glData : List GlRow)
    (init : List (String × AccountData)) (a : String)
    (h : (init.lookup a).isSome) :
    ((glData.foldl (runStep periods meta) init).lookup a).isSome := by
  induction glData generalizing init with
  | nil => simpa using h
  | cons g t ih =>
    rw [List.foldl_cons]
    exact ih _ (lookup_dictInsert_isSome _ _ _ _ h)

theorem runFold_untouched (periods : List Period)
    (meta : List (String × (String × String))) (glData : List GlRow)
    (init : List (String × AccountData)) (a : String)
    (h : ∀ g ∈ glData, g.account ≠ a) :
    (glData.foldl (runStep periods meta) init).lookup a = init.lookup a := by
  induction glData generalizing init with
  | nil => simp
  | cons g t ih =>
    rw [List.foldl_cons, ih _ (fun g2 hg2 => h g2 (List.mem_cons_of_mem _ hg2))]
    unfold runStep
    rw [lookup_dictInsert, if_neg (fun ha => h g (by simp) ha.symm)]

theorem get_period_add_period (ad : AccountData) (pv : PeriodValue) (k : String) :
    (ad.add_period pv).get_period k =
      if k = pv.period_key then some pv else ad.get_period k := by
  unfold AccountData.add_period AccountData.get_period
  exact lookup_dictInsert _ _ _ _

theorem zeroFill_mono (periods : List Period) (ad : AccountData) (k : String)
    (h : (ad.get_period k).isSome) :
    ((zeroFillAccount periods ad).get_period k).isSome := by
  unfold zeroFillAccount
  induction periods generalizing ad with
  | nil => simpa using h
  | cons q t ih =>
    rw [List.foldl_cons]
    by_cases hq : (ad.get_period q.key).isSome
    · rw [if_pos hq]
      exact ih _ h
    · rw [if_neg hq]
      apply ih
      rw [get_period_add_period]
      by_cases hk : k = q.key
      · simp [hk]
      · simpa [hk] using h

theorem zeroFill_covers (periods : List Period) (ad : AccountData) (p : Period)
    (hp : p ∈ periods) :
    ((zeroFillAccount periods ad).get_period p.key).isSome := by
  induction periods generalizing ad with
  | nil => simp at hp
  | cons q t ih =>
    unfold zeroFillAccount
    rw [List.foldl_cons]
    rcases List.mem_cons.mp hp with rfl | hpt
    · by_cases hq : (ad.get_period p.key).isSome
      · rw [if_pos hq]
        exact zeroFill_mono t ad p.key hq
      · rw [if_neg hq]
        apply zeroFill_mono
        rw [get_period_add_period]
        simp
    · by_cases hq : (ad.get_period q.key).isSome
      · rw [if_pos hq]
        exact ih ad hpt
      · rw [if_neg hq]
        exact ih
          (ad.add_period
            { period_key := q.key, opening := 0, closing := 0, movement := 0 })
          hpt

theorem zeroFill_zero_inv (periods : List Period) (ad : AccountData)
    (hz : ∀ k pv, ad.get_period k = some pv →
      pv = { period_key := k, opening := 0, closing := 0, movement := 0 }) :
    ∀ k pv, (zeroFillAccount periods ad).get_period k = some pv →
      pv = { period_key := k, opening := 0, closing := 0, movement := 0 } := by
  induction periods generalizing ad with
  | nil => simpa using hz
  | cons q t ih =>
    unfold zeroFillAccount
    rw [List.foldl_cons]
    by_cases hq : (ad.get_period q.key).isSome
    · rw [if_pos hq]
      exact ih _ hz
    · rw [if_neg hq]
      apply ih
      intro k pv hk
      rw [get_period_add_period] at hk
      by_cases hkq : k = q.key
      · rw [if_pos hkq] at hk
        cases hk
        simp [hkq]
      · rw [if_neg hkq] at hk
        exact hz k pv hk

theorem accumulate_get (ad : AccountData) (k : String) :
    (ad.accumulate_values).get_period k =
      (ad.get_period k).map
        (fun pv => { pv with movement := pv.movement + pv.opening }) := by
  unfold AccountData.accumulate_values AccountData.get_period
  exact lookup_map_snd ad.period_values
    (fun pv => { pv with movement := pv.movement + pv.opening }) k

theorem unaccumulate_get (ad : AccountData) (k : String) :
    (ad.unaccumulate_values).get_period k =
      (ad.get_period k).map
        (fun pv => { pv with closing := pv.closing - pv.opening }) := by
  unfold AccountData.unaccumulate_values AccountData.get_period
  exact lookup_map_snd ad.period_values
    (fun pv => { pv with closing := pv.closing - pv.opening }) k

theorem applyAccumulation_isSome (filters : Filters) (ad : AccountData)
    (k : String) (h : (ad.get_period k).isSome) :
    ((applyAccumulation filters ad).get_period k).isSome := by
  unfold applyAccumulation
  cases hav : filters.accumulated_values with
  | none => exact h
  | some b =>
    cases b
    · show ((ad.unaccumulate_values).get_period k).isSome
      rw [unaccumulate_get]
      simpa using h
    · show ((ad.accumulate_values).get_period k).isSome
      rw [accumulate_get]
      simpa using h

theorem applyAccumulation_zero (filters : Filters) (ad : AccountData)
    (k : String) (pv : PeriodValue)
    (h : (applyAccumulation filters ad).get_period k = some pv)
    (hz : ∀ k2 pv2, ad.get_period k2 = some pv2 →
      pv2 = { period_key := k2, opening := 0, closing := 0, movement := 0 }) :
    pv = { period_key := k, opening := 0, closing := 0, movement := 0 } := by
  unfold applyAccumulation at h
  cases hav : filters.accumulated_values with
  | none =>
    rw [hav] at h
    exact hz k pv h
  | some b =>
    rw [hav] at h
    cases b
    · replace h : (ad.unaccumulate_values).get_period k = some pv := h
      rw [unaccumulate_get] at h
      cases hget : ad.get_period k with
      | none => rw [hget] at h; simp at h
      | some pv0 =>
        rw [hget] at h
        rw [Option.map_some'] at h
        rw [hz k pv0 hget] at h
        cases h
        norm_num
    · replace h : (ad.accumulate_values).get_period k = some pv := h
      rw [accumulate_get] at h
      cases hget : ad.get_period k with
      | none => rw [hget] at h; simp at h
      | some pv0 =>
        rw [hget] at h
        rw [Option.map_some'] at h
        rw [hz k pv0 hget] at h
        cases h
        norm_num

theorem get_period_mkAccountData (meta : List (String × (String × String)))
    (a k : String) : (mkAccountData meta a).get_period k = none := by
  unfold mkAccountData AccountData.get_period
  cases meta.lookup a <;> rfl

theorem rebaseClosing_zero (periods : List Period)
    (meta : List (String × (String × String))) (gapDB : List (String × ℚ))
    (cd : List (String × ℚ)) (closingDate : ℤ) (a : String)
    (hcd0 : ∀ q ∈ cd, q.1 = a → q.2 = 0)
    (hmem : ∃ q ∈ cd, q.1 = a)
    (hnogap : ∀ r ∈ gapDB, r.1 ≠ a) :
    (rebaseClosingBalances periods meta gapDB cd closingDate).lookup a =
      some ((mkAccountData meta a).add_period
        { period_key := (periods.headD { key := "" }).key, opening := 0,
          closing := 0, movement := 0 }) := by
  have hgap : ((if (periods.headD { key := "" }).from_date - closingDate > 1
      then gapDB else []) : List (String × ℚ)).lookup a = none := by
    split
    · exact lookup_not_mem_keys gapDB a hnogap
    · rfl
  have h1 := rebaseFold_zero_inv (periods.headD { key := "" }).key meta
    (if (periods.headD { key := "" }).from_date - closingDate > 1
      then gapDB else []) cd [] a hgap hcd0 (Or.inl rfl)
  have h2 := rebaseFold_isSome (periods.headD { key := "" }).key meta
    (if (periods.headD { key := "" }).from_date - closingDate > 1
      then gapDB else []) cd [] a (Or.inr hmem)
  rcases h1 with h1 | h1
  · rw [h1] at h2
    simp at h2
  · exact h1

theorem rebaseClosing_isSome (periods : List Period)
    (meta : List (String × (String × String))) (gapDB : List (String × ℚ))
    (cd : List (String × ℚ)) (closingDate : ℤ) (a : String)
    (hmem : ∃ q ∈ cd, q.1 = a) :
    ((rebaseClosingBalances periods meta gapDB cd closingDate).lookup a).isSome :=
  rebaseFold_isSome (periods.headD { key := "" }).key meta _ cd [] a
    (Or.inr hmem)

theorem getOpeningBalances_isSome (periods : List Period)
    (meta : List (String × (String × String))) (db : LedgerDB)
    (names : List String) (a : String) (ha : a ∈ names) :
    ((getOpeningBalances periods meta db names).lookup a).isSome := by
  have hfromGl :
      ((getOpeningBalancesFromGl periods meta db names).lookup a).isSome := by
    unfold getOpeningBalancesFromGl
    exact rebaseClosing_isSome periods meta db.gap_movements _ earliestDate a
      ⟨(a, 0), List.mem_map.mpr ⟨a, ha, rfl⟩, rfl⟩
  unfold getOpeningBalances
  by_cases hig : db.ignore_account_closing_balance
  · rw [if_pos hig]
    exact hfromGl
  · rw [if_neg hig]
    cases hv : db.last_closing_voucher with
    | none => exact hfromGl
    | some closingDate =>
      by_cases hs : (((getClosingBalances names db).map (fun p => p.2)).sum ≠ 0)
      · show (((if (((getClosingBalances names db).map (fun p => p.2)).sum ≠ 0)
            then rebaseClosingBalances periods meta db.gap_movements
              (getClosingBalances names db) closingDate
            else getOpeningBalancesFromGl periods meta db names)).lookup a).isSome
        rw [if_pos hs]
        exact rebaseClosing_isSome periods meta db.gap_movements _ closingDate a
          (lookup_isSome_exists _ _ (getClosingBalances_isSome names db a ha))
      · show (((if (((getClosingBalances names db).map (fun p => p.2)).sum ≠ 0)
            then rebaseClosingBalances periods meta db.gap_movements
              (getClosingBalances names db) closingDate
            else getOpeningBalancesFromGl periods meta db names)).lookup a).isSome
        rw [if_neg hs]
        exact hfromGl

theorem getOpeningBalances_zero (periods : List Period)
    (meta : List (String × (String × String))) (db : LedgerDB)
    (names : List String) (a : String) (ha : a ∈ names)
    (hnocb : ∀ r ∈ db.closing_balances, r.1 ≠ a)
    (hnogap : ∀ r ∈ db.gap_movements, r.1 ≠ a) :
    (getOpeningBalances periods meta db names).lookup a =
      some ((mkAccountData meta a).add_period
        { period_key := (periods.headD { key := "" }).key, opening := 0,
          closing := 0, movement := 0 }) := by
  have hfromGl : (getOpeningBalancesFromGl periods meta db names).lookup a =
      some ((mkAccountData meta a).add_period
        { period_key := (periods.headD { key := "" }).key, opening := 0,
          closing := 0, movement := 0 }) := by
    unfold getOpeningBalancesFromGl
    apply rebaseClosing_zero
    · intro q hq _
      obtain ⟨x, _, hx⟩ := List.mem_map.mp hq
      rw [← hx]
    · exact ⟨(a, 0), List.mem_map.mpr ⟨a, ha, rfl⟩, rfl⟩
    · exact hnogap
  unfold getOpeningBalances
  by_cases hig : db.ignore_account_closing_balance
  · rw [if_pos hig]
    exact hfromGl
  · rw [if_neg hig]
    cases hv : db.last_closing_voucher with
    | none => exact hfromGl
    | some closingDate =>
      by_cases hs : (((getClosingBalances names db).map (fun p => p.2)).sum ≠ 0)
      · show ((if (((getClosingBalances names db).map (fun p => p.2)).sum ≠ 0)
            then rebaseClosingBalances periods meta db.gap_movements
              (getClosingBalances names db) closingDate
            else getOpeningBalancesFromGl periods meta db names)).lookup a =
          some ((mkAccountData meta a).add_period
            { period_key := (periods.headD { key := "" }).key, opening := 0,
              closing := 0, movement := 0 })
        rw [if_pos hs]
        apply rebaseClosing_zero
        · exact getClosingBalances_pairs_zero names db a hnocb
        · exact lookup_isSome_exists _ _ (getClosingBalances_isSome names db a ha)
        · exact hnogap
      · show ((if (((getClosingBalances names db).map (fun p => p.2)).sum ≠ 0)
            then rebaseClosingBalances periods meta db.gap_movements
              (getClosingBalances names db) closingDate
            else getOpeningBalancesFromGl periods meta db names)).lookup a =
          some ((mkAccountData meta a).add_period
            { period_key := (periods.headD { key := "" }).key, opening := 0,
              closing := 0, movement := 0 })
        rw [if_neg hs]
        exact hfromGl

theorem fetchAccountBalances_lookup (db : LedgerDB) (filters : Filters)
    (periods : List Period) (accounts : List AccInfo) (a : String) :
    (fetchAccountBalances db filters periods accounts).lookup a =
      ((db.gl_movements.foldl (runStep periods (accountMetaOf accounts))
        (getOpeningBalances periods (accountMetaOf accounts) db
          (accountNamesOf accounts))).lookup a).map
        (fun ad => applyAccumulation filters (zeroFillAccount periods ad)) := by
  unfold fetchAccountBalances calculateRunningBalances handleBalanceAccumulation
  rw [lookup_map_snd, lookup_map_snd, Option.map_map]
  rfl

/-- C6: `fetch_account_balances` returns a map in which every requested
account is present with a `PeriodValue` for every period key; an account
with no checkpoint row, no gap-movement row and no GL row is zero-filled
(`opening = closing = movement = 0` in every period), never an error. -/
theorem C6_complete_grid (db : LedgerDB) (filters : Filters)
    (periods : List Period) (accounts : List AccInfo) (acc : AccInfo)
    (p : Period) (hacc : acc ∈ accounts) (hp : p ∈ periods) :
    ∃ ad, (fetchAccountBalances db filters periods accounts).lookup acc.name =
        some ad ∧
      (ad.get_period p.key).isSome ∧
      ((∀ r ∈ db.closing_balances, r.1 ≠ acc.name) →
       (∀ r ∈ db.gap_movements, r.1 ≠ acc.name) →
       (∀ g ∈ db.gl_movements, g.account ≠ acc.name) →
       ad.get_period p.key =
         some { period_key := p.key, opening := 0, closing := 0,
                movement := 0 }) := by
  have hname : acc.name ∈ accountNamesOf accounts :=
    List.mem_dedup.mpr (List.mem_map.mpr ⟨acc, hacc, rfl⟩)
  have hopen := getOpeningBalances_isSome periods (accountMetaOf accounts) db
    (accountNamesOf accounts) acc.name hname
  obtain ⟨ad0, had0⟩ := Option.isSome_iff_exists.mp
    (runFold_isSome periods (accountMetaOf accounts) db.gl_movements _
      acc.name hopen)
  refine ⟨applyAccumulation filters (zeroFillAccount periods ad0), ?_, ?_, ?_⟩
  · rw [fetchAccountBalances_lookup, had0]
    rfl
  · exact applyAccumulation_isSome filters _ p.key (zeroFill_covers periods ad0 p hp)
  · intro hnocb hnogap hnogl
    have huntouched := runFold_untouched periods (accountMetaOf accounts)
      db.gl_movements (getOpeningBalances periods (accountMetaOf accounts) db
        (accountNamesOf accounts)) acc.name hnogl
    have hz0 := getOpeningBalances_zero periods (accountMetaOf accounts) db
      (accountNamesOf accounts) acc.name hname hnocb hnogap
    have had0eq : ad0 = (mkAccountData (accountMetaOf accounts) acc.name).add_period
        { period_key := (periods.headD { key := "" }).key, opening := 0,
          closing := 0, movement := 0 } := by
      rw [huntouched, hz0] at had0
      exact (Option.some_inj.mp had0).symm
    have hzinv : ∀ k pv, ad0.get_period k = some pv →
        pv = { period_key := k, opening := 0, closing := 0, movement := 0 } := by
      intro k pv hk
      rw [had0eq, get_period_add_period] at hk
      by_cases hkf : k = (periods.headD { key := "" }).key
      · rw [if_pos hkf] at hk
        cases hk
        simp [hkf]
      · rw [if_neg hkf, get_period_mkAccountData] at hk
        simp at hk
    obtain ⟨pv, hpv⟩ := Option.isSome_iff_exists.mp
      (applyAccumulation_isSome filters _ p.key (zeroFill_covers periods ad0 p hp))
    rw [hpv, applyAccumulation_zero filters _ p.key pv hpv
      (zeroFill_zero_inv periods ad0 hzinv)]

/-- Witness for C6: account `A` with data only for unrelated account `B`
still gets a complete, zero-filled grid. -/
theorem C6_complete_grid_witness :
    ∃ ad, (fetchAccountBalances exC6db {} exC1periods exC1accounts).lookup "A" =
        some ad ∧
      (ad.get_period "p1").isSome ∧
      ((∀ r ∈ exC6db.closing_balances, r.1 ≠ "A") →
       (∀ r ∈ exC6db.gap_movements, r.1 ≠ "A") →
       (∀ g ∈ exC6db.gl_movements, g.account ≠ "A") →
       ad.get_period "p1" =
         some { period_key := "p1", opening := 0, closing := 0,
                movement := 0 }) :=
  C6_complete_grid exC6db {} exC1periods exC1accounts { name := "A" }
    { key := "p1", from_date := 1000, to_date := 1030 } (by decide) (by decide)

-- ---------------------------------------------------------------------------
-- C1: the balance invariant fails for a rebased checkpoint-only account
-- ---------------------------------------------------------------------------

/-- C1 (code bug): for account `A` with a checkpoint closing balance of 100
the day before the report start and no GL movement inside (or after) the
report window, the Balance Collector leaves the rebased first-period value
as `(opening=100, closing=0, movement=0)` — `_calculate_running_balances`
never revisits it because the account has no GL row, and the zero-fill pass
only adds missing keys.  `closing = opening + movement` fails: `0 ≠ 100`. -/
theorem C1_running_balance_invariant_fails :
    ∃ pv, ((fetchAccountBalances exC1db {} exC1periods exC1accounts).lookup
        "A").bind (fun ad => ad.get_period "p1") = some pv ∧
      pv.closing ≠ pv.opening + pv.movement := by
  refine ⟨{ period_key := "p1", opening := 100, closing := 0, movement := 0 },
    ?_, by norm_num⟩
  norm_num [fetchAccountBalances, accountNamesOf, accountMetaOf,
    getOpeningBalances, getClosingBalances, rebaseClosingBalances, rebaseStep,
    getOpeningBalancesFromGl, calculateRunningBalances, runStep,
    zeroFillAccount, handleBalanceAccumulation, applyAccumulation,
    mkAccountData, dictInsert, AccountData.add_period, AccountData.get_period,
    exC1db, exC1periods, exC1accounts, earliestDate, List.lookup]

-- ---------------------------------------------------------------------------
-- C4/C5: the dependency resolver
-- ---------------------------------------------------------------------------

theorem keys_dictInsert {α β : Type} [DecidableEq α] (d : List (α × β))
    (k : α) (v : β) :
    (dictInsert d k v).map Prod.fst =
      if d.any (fun p => decide (p.1 = k)) then d.map Prod.fst
      else d.map Prod.fst ++ [k] := by
  unfold dictInsert
  split
  case isTrue h =>
    rw [List.map_map]
    apply List.map_congr_left
    intro p _
    by_cases hp : p.1 = k
    · simp [hp]
    · simp [hp]
  case isFalse h =>
    simp

theorem keys_nodup_dictInsert {α β : Type} [DecidableEq α]
    (d : List (α × β)) (k : α) (v : β) (h : (d.map Prod.fst).Nodup) :
    ((dictInsert d k v).map Prod.fst).Nodup := by
  rw [keys_dictInsert]
  split
  · exact h
  case isFalse hany =>
    rw [List.nodup_append]
    refine ⟨h, by simp, ?_⟩
    intro x hx hxk
    rw [List.mem_singleton.mp hxk] at hx
    obtain ⟨p, hp, hpk⟩ := List.mem_map.mp hx
    exact hany (List.any_eq_true.mpr ⟨p, hp, decide_eq_true hpk⟩)

theorem buildRowMap_keys_nodup (rows : List Row) :
    ((buildRowMap rows).map Prod.fst).Nodup := by
  suffices h : ∀ (rs : List Row) (acc : List (String × Row)),
      (acc.map Prod.fst).Nodup →
      ((rs.foldl (fun m r =>
        match r.reference_code with
        | some c => dictInsert m c r
        | none => m) acc).map Prod.fst).Nodup from h rows [] (by simp)
  intro rs
  induction rs with
  | nil => intro acc hacc; simpa using hacc
  | cons r t ih =>
    intro acc hacc
    rw [List.foldl_cons]
    cases hr : r.reference_code with
    | none => exact ih acc hacc
    | some c => exact ih _ (keys_nodup_dictInsert acc c r hacc)

theorem buildRowMap_mem (rows : List Row) :
    ∀ q ∈ buildRowMap rows, q.2 ∈ rows ∧ q.2.reference_code = some q.1 := by
  suffices h : ∀ (rs : List Row) (acc : List (String × Row)),
      (∀ q ∈ acc, q.2 ∈ rows ∧ q.2.reference_code = some q.1) →
      (∀ r ∈ rs, r ∈ rows) →
      ∀ q ∈ rs.foldl (fun m r =>
        match r.reference_code with
        | some c => dictInsert m c r
        | none => m) acc, q.2 ∈ rows ∧ q.2.reference_code = some q.1 by
    exact h rows [] (by simp) (fun r hr => hr)
  intro rs
  induction rs with
  | nil => intro acc hacc _ q hq; exact hacc q hq
  | cons r t ih =>
    intro acc hacc hsub q hq
    rw [List.foldl_cons] at hq
    cases hr : r.reference_code with
    | none =>
      rw [hr] at hq
      exact ih acc hacc (fun x hx => hsub x (List.mem_cons_of_mem _ hx)) q hq
    | some c =>
      rw [hr] at hq
      refine ih _ ?_ (fun x hx => hsub x (List.mem_cons_of_mem _ hx)) q hq
      intro q2 hq2
      rcases mem_dictInsert _ _ _ _ hq2 with ⟨hq2d, _⟩ | hq2v
      · exact hacc q2 hq2d
      · rw [hq2v]
        exact ⟨hsub r (by simp), hr⟩

theorem lookup_mem {α β : Type} [DecidableEq α] (d : List (α × β)) (k : α)
    (v : β) (h : d.lookup k = some v) : (k, v) ∈ d := by
  induction d with
  | nil => simp at h
  | cons p t ih =>
    rcases p with ⟨a, b⟩
    by_cases hk : k = a
    · subst hk
      simp only [List.lookup_cons, beq_self_eq_true] at h
      cases h
      simp
    · simp only [List.lookup_cons, beq_false_of_ne hk] at h
      exact List.mem_cons_of_mem _ (ih h)

theorem mem_keys_lookup_isSome {α β : Type} [DecidableEq α]
    (d : List (α × β)) (k : α) (h : ∃ p ∈ d, p.1 = k) :
    (d.lookup k).isSome := by
  induction d with
  | nil => simp at h
  | cons p t ih =>
    rcases p with ⟨a, b⟩
    by_cases hk : k = a
    · subst hk
      simp [List.lookup_cons]
    · simp only [List.lookup_cons, beq_false_of_ne hk]
      apply ih
      obtain ⟨q, hq, hqk⟩ := h
      rcases List.mem_cons.mp hq with rfl | hqt
      · exact absurd (show k = a from hqk.symm) hk
      · exact ⟨q, hqt, hqk⟩

theorem addEdges_adj (codes : List String) (code : String) (ds : List String)
    (st : (String → List String) × (String → ℤ)) (d : String) :
    (addEdges codes code ds st).1 d =
      st.1 d ++ List.replicate
        ((ds.filter (fun x => decide (x ∈ codes))).count d) code := by
  induction ds generalizing st with
  | nil => simp [addEdges]
  | cons n ns ih =>
    by_cases hn : n ∈ codes
    · rw [show addEdges codes code (n :: ns) st =
          addEdges codes code ns
            (fun d2 => if d2 = n then st.1 d2 ++ [code] else st.1 d2,
             fun c2 => if c2 = code then st.2 c2 + 1 else st.2 c2) from by
        simp [addEdges, hn]]
      rw [ih, List.filter_cons, if_pos (decide_eq_true hn)]
      dsimp only
      by_cases hdn : d = n
      · subst hdn
        rw [if_pos rfl, List.append_assoc]
        congr 1
        rw [show (d :: List.filter (fun x => decide (x ∈ codes)) ns).count d =
            (List.filter (fun x => decide (x ∈ codes)) ns).count d + 1 from by
          simp [List.count_cons]]
        rw [List.replicate_succ]
        rfl
      · rw [if_neg hdn]
        congr 1
        rw [show (n :: List.filter (fun x => decide (x ∈ codes)) ns).count d =
            (List.filter (fun x => decide (x ∈ codes)) ns).count d from by
          simp [List.count_cons, hdn, Ne.symm hdn]]
    · rw [show addEdges codes code (n :: ns) st = addEdges codes code ns st from by
        simp [addEdges, hn]]
      rw [ih, List.filter_cons, if_neg (by simp [hn])]

theorem addEdges_deg (codes : List String) (code : String) (ds : List String)
    (st : (String → List String) × (String → ℤ)) (c : String) :
    (addEdges codes code ds st).2 c =
      st.2 c + (if c = code then
        (((ds.filter (fun x => decide (x ∈ codes))).length : ℕ) : ℤ) else 0) := by
  induction ds generalizing st with
  | nil => simp [addEdges]
  | cons n ns ih =>
    by_cases hn : n ∈ codes
    · rw [show addEdges codes code (n :: ns) st =
          addEdges codes code ns
            (fun d2 => if d2 = n then st.1 d2 ++ [code] else st.1 d2,
             fun c2 => if c2 = code then st.2 c2 + 1 else st.2 c2) from by
        simp [addEdges, hn]]
      rw [ih, List.filter_cons, if_pos (decide_eq_true hn), List.length_cons]
      dsimp only
      by_cases hc : c = code
      · rw [if_pos hc, if_pos hc, if_pos hc]
        push_cast
        ring
      · rw [if_neg hc, if_neg hc, if_neg hc]
    · rw [show addEdges codes code (n :: ns) st = addEdges codes code ns st from by
        simp [addEdges, hn]]
      rw [ih, List.filter_cons,
        if_neg (show ¬ decide (n ∈ codes) = true by simp [hn])]

theorem buildGraph_deg (codes : List String) (deps : String → List String)
    (hnd : codes.Nodup) (c : String) :
    (buildGraph codes deps).2 c =
      if c ∈ codes then
        ((((deps c).filter (fun x => decide (x ∈ codes))).length : ℕ) : ℤ)
      else 0 := by
  suffices h : ∀ (cs : List String) (st : (String → List String) × (String → ℤ)),
      cs.Nodup →
      (cs.foldl (fun st code => addEdges codes code (deps code) st) st).2 c =
        st.2 c + (if c ∈ cs then
          ((((deps c).filter (fun x => decide (x ∈ codes))).length : ℕ) : ℤ)
          else 0) by
    unfold buildGraph
    rw [h codes _ hnd]
    simp
  intro cs
  induction cs with
  | nil => intro st _; simp
  | cons x xs ih =>
    intro st hnd2
    rw [List.foldl_cons, ih _ (List.Nodup.of_cons hnd2), addEdges_deg]
    by_cases hcx : c = x
    · subst hcx
      have hcxs : c ∉ xs := (List.nodup_cons.mp hnd2).1
      rw [if_pos rfl, if_neg hcxs, if_pos (List.mem_cons_self c xs), add_zero]
    · rw [if_neg hcx, add_zero]
      by_cases hcs : c ∈ xs
      · rw [if_pos hcs, if_pos (List.mem_cons_of_mem x hcs)]
      · rw [if_neg hcs, if_neg (by simp [List.mem_cons, hcx, hcs])]

theorem buildGraph_count (codes : List String) (deps : String → List String)
    (hnd : codes.Nodup) (c d : String) :
    (((buildGraph codes deps).1 d).count c : ℤ) =
      if c ∈ codes then
        ((((deps c).filter (fun x => decide (x ∈ codes))).count d : ℕ) : ℤ)
      else 0 := by
  suffices h : ∀ (cs : List String) (st : (String → List String) × (String → ℤ)),
      cs.Nodup →
      (((cs.foldl (fun st code => addEdges codes code (deps code) st) st).1 d).count c : ℤ) =
        ((st.1 d).count c : ℤ) + (if c ∈ cs then
          ((((deps c).filter (fun x => decide (x ∈ codes))).count d : ℕ) : ℤ)
          else 0) by
    unfold buildGraph
    rw [h codes _ hnd]
    simp
  intro cs
  induction cs with
  | nil => intro st _; simp
  | cons x xs ih =>
    intro st hnd2
    rw [List.foldl_cons, ih _ (List.Nodup.of_cons hnd2), addEdges_adj,
      List.count_append, List.count_replicate]
    by_cases hcx : c = x
    · subst hcx
      have hcxs : c ∉ xs := (List.nodup_cons.mp hnd2).1
      rw [if_pos (beq_self_eq_true c), if_neg hcxs,
        if_pos (List.mem_cons_self c xs), add_zero]
      push_cast
      ring
    · rw [if_neg (show ¬ (x == c) = true by
          simp only [beq_iff_eq]
          exact fun h => hcx h.symm),
        Nat.add_zero]
      by_cases hcs : c ∈ xs
      · rw [if_pos hcs, if_pos (List.mem_cons_of_mem x hcs)]
      · rw [if_neg hcs, if_neg (by simp [List.mem_cons, hcx, hcs])]

theorem sum_map_add (l : List String) (f g : String → ℤ) :
    (l.map (fun d => f d + g d)).sum = (l.map f).sum + (l.map g).sum := by
  induction l with
  | nil => simp
  | cons a t ih =>
    simp only [List.map_cons, List.sum_cons, ih]
    ring

theorem sum_beq_zero (codes : List String) (x : String) (hx : x ∉ codes) :
    ((codes.map (fun d => if d == x then (1 : ℤ) else 0)).sum) = 0 := by
  induction codes with
  | nil => simp
  | cons y ys ih =>
    simp only [List.map_cons, List.sum_cons]
    rw [if_neg (show ¬ (y == x) = true by
        simp only [beq_iff_eq]
        exact fun h => hx (h ▸ List.mem_cons_self y ys)),
      ih (fun h => hx (List.mem_cons_of_mem y h))]
    ring

theorem sum_beq_one (codes : List String) (x : String) (hnd : codes.Nodup)
    (hx : x ∈ codes) :
    ((codes.map (fun d => if d == x then (1 : ℤ) else 0)).sum) = 1 := by
  induction codes with
  | nil => simp at hx
  | cons y ys ih =>
    simp only [List.map_cons, List.sum_cons]
    by_cases hyx : y = x
    · rw [if_pos (beq_iff_eq.mpr hyx)]
      rw [sum_beq_zero ys x (by rw [← hyx]; exact (List.nodup_cons.mp hnd).1)]
      ring
    · rw [if_neg (show ¬ (y == x) = true by
          simp only [beq_iff_eq]
          exact hyx)]
      rw [ih (List.Nodup.of_cons hnd)
        (by rcases List.mem_cons.mp hx with h | h
            · exact absurd h.symm hyx
            · exact h)]
      ring

theorem sum_counts_eq_length (l codes : List String) (hnd : codes.Nodup)
    (hsub : ∀ x ∈ l, x ∈ codes) :
    ((codes.map (fun d => (l.count d : ℤ))).sum) = l.length := by
  induction l with
  | nil => simp
  | cons a t ih =>
    have hmapeq : codes.map (fun d => ((a :: t).count d : ℤ)) =
        codes.map (fun d => (t.count d : ℤ) + (if d == a then (1 : ℤ) else 0)) := by
      apply List.map_congr_left
      intro d _
      rw [List.count_cons]
      by_cases hda : d = a
      · subst hda
        rw [if_pos (beq_self_eq_true d), if_pos (beq_self_eq_true d)]
        push_cast
        ring
      · rw [if_neg (show ¬ (a == d) = true by
            simp only [beq_iff_eq]
            exact fun h => hda h.symm),
          if_neg (show ¬ (d == a) = true by
            simp only [beq_iff_eq]
            exact hda)]
        push_cast
        ring
    rw [hmapeq, sum_map_add,
      ih (fun x hx => hsub x (List.mem_cons_of_mem a hx)),
      sum_beq_one codes a hnd (hsub a (List.mem_cons_self a t))]
    push_cast [List.length_cons]
    ring

theorem buildGraph_deg_nonneg (codes : List String) (deps : String → List String)
    (hnd : codes.Nodup) (c : String) : 0 ≤ (buildGraph codes deps).2 c := by
  rw [buildGraph_deg codes deps hnd c]
  split
  · positivity
  · rfl

theorem buildGraph_adj_mem_codes (codes : List String)
    (deps : String → List String) (hnd : codes.Nodup) (d x : String)
    (hx : x ∈ (buildGraph codes deps).1 d) : x ∈ codes := by
  by_contra hxc
  have hcount := buildGraph_count codes deps hnd x d
  rw [if_neg hxc] at hcount
  have : ((buildGraph codes deps).1 d).count x = 0 := by exact_mod_cast hcount
  exact (List.count_eq_zero.mp this) hx

theorem buildGraph_balance (codes : List String) (deps : String → List String)
    (hnd : codes.Nodup) (c : String) (hc : c ∈ codes) :
    (buildGraph codes deps).2 c =
      ((codes.map (fun d => (((buildGraph codes deps).1 d).count c : ℤ))).sum) := by
  rw [buildGraph_deg codes deps hnd c, if_pos hc]
  rw [show codes.map (fun d => (((buildGraph codes deps).1 d).count c : ℤ)) =
      codes.map (fun d =>
        (((deps c).filter (fun x => decide (x ∈ codes))).count d : ℤ)) from by
    apply List.map_congr_left
    intro d _
    rw [buildGraph_count codes deps hnd c d, if_pos hc]]
  rw [sum_counts_eq_length _ codes hnd]
  intro x hx
  simpa using (List.mem_filter.mp hx).2

theorem decNeighbors_cons (n : String) (ns : List String) (deg : String → ℤ)
    (queue : List String) :
    decNeighbors (n :: ns) (deg, queue) =
      decNeighbors ns (fun c => if c = n then deg c - 1 else deg c,
        if (if n = n then deg n - 1 else deg n) = 0 then queue ++ [n]
        else queue) := rfl

theorem decNeighbors_deg (ns : List String) (deg : String → ℤ)
    (queue : List String) (x : String) :
    (decNeighbors ns (deg, queue)).1 x = deg x - ns.count x := by
  induction ns generalizing deg queue with
  | nil => simp [decNeighbors]
  | cons n ns ih =>
    rw [decNeighbors_cons, ih]
    rw [List.count_cons]
    by_cases hx : x = n
    · subst hx
      rw [if_pos rfl, if_pos (beq_self_eq_true x)]
      push_cast
      ring
    · rw [if_neg hx, if_neg (show ¬ (n == x) = true by
        simp only [beq_iff_eq]
        exact fun h => hx h.symm)]
      push_cast
      ring

theorem decNeighbors_queue (ns : List String) (deg : String → ℤ)
    (queue : List String) :
    ∃ added, (decNeighbors ns (deg, queue)).2 = queue ++ added ∧
      added.Nodup ∧
      ∀ x, x ∈ added ↔ (1 ≤ deg x ∧ deg x ≤ (ns.count x : ℤ)) := by
  induction ns generalizing deg queue with
  | nil =>
    refine ⟨[], by simp [decNeighbors], by simp, ?_⟩
    intro x
    simp only [List.not_mem_nil, List.count_nil, false_iff]
    intro hcon
    omega
  | cons n ns ih =>
    rw [decNeighbors_cons, if_pos rfl]
    obtain ⟨added1, hq, hnd1, hmem1⟩ :=
      ih (fun c => if c = n then deg c - 1 else deg c)
        (if deg n - 1 = 0 then queue ++ [n] else queue)
    refine ⟨(if deg n - 1 = 0 then [n] else []) ++ added1, ?_, ?_, ?_⟩
    · rw [hq]
      by_cases hdn : deg n - 1 = 0
      · rw [if_pos hdn, if_pos hdn, List.append_assoc]
      · rw [if_neg hdn, if_neg hdn]
        simp
    · rw [List.nodup_append]
      refine ⟨?_, hnd1, ?_⟩
      · split <;> simp
      · intro x hx hx1
        rcases (hmem1 x).mp hx1 with ⟨h1, _⟩
        by_cases hdn : deg n - 1 = 0
        · rw [if_pos hdn] at hx
          rw [List.mem_singleton.mp hx, if_pos rfl] at h1
          omega
        · rw [if_neg hdn] at hx
          simp at hx
    · intro x
      rw [List.mem_append, hmem1 x, List.count_cons]
      by_cases hx : x = n
      · subst hx
        rw [if_pos rfl, if_pos (beq_self_eq_true x)]
        by_cases hdn : deg x - 1 = 0
        · rw [if_pos hdn]
          simp only [List.mem_singleton]
          constructor
          · intro _
            constructor
            · omega
            · push_cast
              omega
          · intro _
            exact Or.inl trivial
        · rw [if_neg hdn]
          simp only [List.not_mem_nil, false_or]
          constructor
          · intro hpair
            obtain ⟨h1, h2⟩ := hpair
            push_cast at h2 ⊢
            omega
          · intro hpair
            obtain ⟨h1, h2⟩ := hpair
            push_cast at h2 ⊢
            omega
      · rw [if_neg hx, if_neg (show ¬ (n == x) = true by
            simp only [beq_iff_eq]
            exact fun h => hx h.symm)]
        constructor
        · intro hor
          rcases hor with hl | hr
          · exfalso
            by_cases hdn : deg n - 1 = 0
            · rw [if_pos hdn] at hl
              exact hx (List.mem_singleton.mp hl)
            · rw [if_neg hdn] at hl
              exact List.not_mem_nil x hl
          · obtain ⟨h1, h2⟩ := hr
            constructor
            · exact h1
            · push_cast at h2 ⊢
              omega
        · intro hpair
          obtain ⟨h1, h2⟩ := hpair
          right
          refine ⟨h1, ?_⟩
          push_cast at h2 ⊢
          omega

theorem pair_le_sum (l : List String) (f : String → ℤ) (a b : String)
    (ha : a ∈ l) (hb : b ∈ l) (hab : a ≠ b)
    (hf : ∀ x ∈ l, 0 ≤ f x) : f a + f b ≤ (l.map f).sum := by
  have hperm : l.Perm (a :: l.erase a) := List.perm_cons_erase ha
  have hsum : (l.map f).sum = f a + ((l.erase a).map f).sum := by
    rw [(hperm.map f).sum_eq, List.map_cons, List.sum_cons]
  have hbe : b ∈ l.erase a := (List.mem_erase_of_ne (Ne.symm hab)).mpr hb
  have hfb : f b ≤ ((l.erase a).map f).sum := by
    apply List.single_le_sum
    · intro x hx
      obtain ⟨y, hy, rfl⟩ := List.mem_map.mp hx
      exact hf y (List.erase_subset a l hy)
    · exact List.mem_map_of_mem f hbe
  rw [hsum]
  linarith

theorem perm_split (codes result : List String) (hnd : codes.Nodup)
    (hrnd : result.Nodup) (hsub : ∀ x ∈ result, x ∈ codes) :
    codes.Perm (result ++ codes.filter (fun x => decide (¬ x ∈ result))) := by
  have h2 : (result ++ codes.filter (fun x => decide (¬ x ∈ result))).Nodup := by
    rw [List.nodup_append]
    refine ⟨hrnd, hnd.filter _, ?_⟩
    intro x hx hxf
    have hx2 := (List.mem_filter.mp hxf).2
    simp only [decide_eq_true_eq] at hx2
    exact hx2 hx
  rw [List.perm_ext_iff_of_nodup hnd h2]
  intro x
  constructor
  · intro hx
    by_cases hr : x ∈ result
    · exact List.mem_append_left _ hr
    · exact List.mem_append_right _ (List.mem_filter.mpr ⟨hx, by simp [hr]⟩)
  · intro hx
    rcases List.mem_append.mp hx with h | h
    · exact hsub x h
    · exact (List.mem_filter.mp h).1

theorem kahnInv_step (codes : List String) (adj : String → List String)
    (deg0 deg : String → ℤ) (rest result : List String) (current : String)
    (hnd : codes.Nodup)
    (hadj : ∀ d x, x ∈ adj d → x ∈ codes)
    (hbal : ∀ c ∈ codes, deg0 c =
      ((codes.map (fun d => (((adj d).count c : ℕ) : ℤ))).sum))
    (hinv : KahnInv codes adj deg0 deg (current :: rest) result) :
    KahnInv codes adj deg0
      (decNeighbors (adj current) (deg, rest)).1
      (decNeighbors (adj current) (deg, rest)).2
      (result ++ [current]) := by
  unfold KahnInv at hinv ⊢
  obtain ⟨i1, i2, i3, i4, i5, i6, i7⟩ := hinv
  obtain ⟨added, hq, hand, hamem⟩ := decNeighbors_queue (adj current) deg rest
  have hdeg : ∀ x, (decNeighbors (adj current) (deg, rest)).1 x
      = deg x - (adj current).count x := fun x => decNeighbors_deg _ deg rest x
  have hcur_codes : current ∈ codes := i2 current (by simp)
  have hcur_nr : current ∉ result := by
    intro h
    exact (List.nodup_append.mp i1).2.2 h (List.mem_cons_self _ _)
  have hadded_codes : ∀ x ∈ added, x ∈ codes := by
    intro x hx
    obtain ⟨h1, h2⟩ := (hamem x).mp hx
    have hxadj : x ∈ adj current := by
      by_contra hxa
      rw [List.count_eq_zero.mpr hxa] at h2
      push_cast at h2
      omega
    exact hadj current x hxadj
  have hadded_not_old : ∀ x ∈ added, x ∉ result ++ current :: rest := by
    intro x hx hxold
    obtain ⟨h1, _⟩ := (hamem x).mp hx
    have h4 := i4 x hxold
    omega
  have hre : result ++ [current] ++ (rest ++ added)
      = (result ++ current :: rest) ++ added := by
    simp [List.append_assoc]
  refine ⟨?_, ?_, ?_, ?_, ?_, ?_, ?_⟩
  · rw [hq, hre, List.nodup_append]
    exact ⟨i1, hand, fun x hxold hxadd => hadded_not_old x hxadd hxold⟩
  · intro x hx
    rw [hq, hre] at hx
    rcases List.mem_append.mp hx with h | h
    · exact i2 x h
    · exact hadded_codes x h
  · intro c
    rw [hdeg c, i3 c, List.map_append, List.sum_append]
    simp only [List.map_cons, List.map_nil, List.sum_cons, List.sum_nil,
      add_zero]
    ring
  · intro c hc
    rw [hq, hre] at hc
    rw [hdeg c]
    rcases List.mem_append.mp hc with h | h
    · have h4 := i4 c h
      omega
    · obtain ⟨h1, h2⟩ := (hamem c).mp h
      omega
  · intro c hc hcnot
    rw [hq, hre] at hcnot
    have h5 := i5 c hc (fun h => hcnot (List.mem_append_left _ h))
    have hna : ¬ (1 ≤ deg c ∧ deg c ≤ ((adj current).count c : ℤ)) :=
      fun h => hcnot (List.mem_append_right _ ((hamem c).mpr h))
    rw [hdeg c]
    omega
  · intro c hc d hd hcnt
    rw [hq] at hc
    rcases List.mem_append.mp hc with h | h
    · exact List.mem_append_left _ (i6 c (List.mem_cons_of_mem _ h) d hd hcnt)
    · by_contra hdnot
      have hdnr : d ∉ result := fun hh => hdnot (List.mem_append_left _ hh)
      have hdnc : d ≠ current := by
        intro hh
        exact hdnot (by rw [hh]; exact List.mem_append_right _ (by simp))
      have hccodes := hadded_codes c h
      obtain ⟨h1, h2⟩ := (hamem c).mp h
      have hbalc := hbal c hccodes
      have hdegc := i3 c
      have hrsub : ∀ x ∈ result, x ∈ codes :=
        fun x hx => i2 x (List.mem_append_left _ hx)
      have hrnd : result.Nodup := (List.nodup_append.mp i1).1
      have hLperm := perm_split codes result hnd hrnd hrsub
      have hsumsplit :=
        (hLperm.map (fun d2 => (((adj d2).count c : ℕ) : ℤ))).sum_eq
      rw [List.map_append, List.sum_append] at hsumsplit
      have hcurL : current ∈
          codes.filter (fun x => decide (¬ x ∈ result)) :=
        List.mem_filter.mpr ⟨hcur_codes, by simp [hcur_nr]⟩
      have hdL : d ∈ codes.filter (fun x => decide (¬ x ∈ result)) :=
        List.mem_filter.mpr ⟨hd, by simp [hdnr]⟩
      have hpair := pair_le_sum (codes.filter (fun x => decide (¬ x ∈ result)))
        (fun d2 => (((adj d2).count c : ℕ) : ℤ)) current d
        hcurL hdL (Ne.symm hdnc)
        (fun x _ => by positivity)
      simp only at hpair
      have hS : deg c =
          (((codes.filter (fun x => decide (¬ x ∈ result))).map
            (fun d2 => (((adj d2).count c : ℕ) : ℤ))).sum) := by
        rw [hdegc, hbalc, hsumsplit]
        ring
      omega
  · intro n c hres d hd hcnt
    rcases lt_trichotomy n result.length with hlt | heq | hgt
    · rw [List.getElem?_append, if_pos hlt] at hres
      have hdres := i7 n c hres d hd hcnt
      rw [List.take_append_eq_append_take]
      exact List.mem_append_left _ hdres
    · subst heq
      rw [List.getElem?_concat_length] at hres
      have hcc : c = current := by
        injection hres with hres2
        exact hres2.symm
      subst hcc
      have hdr := i6 c (List.mem_cons_self _ _) d hd hcnt
      rw [List.take_append_eq_append_take, List.take_length, Nat.sub_self,
        List.take_zero, List.append_nil]
      exact hdr
    · have hnone : (result ++ [current])[n]? = none := by
        apply List.getElem?_eq_none
        simp only [List.length_append, List.length_singleton]
        omega
      rw [hnone] at hres
      exact absurd hres (by simp)

theorem kahnLoop_spec (codes : List String) (adj : String → List String)
    (deg0 : String → ℤ)
    (hnd : codes.Nodup)
    (hadj : ∀ d x, x ∈ adj d → x ∈ codes)
    (hbal : ∀ c ∈ codes, deg0 c =
      ((codes.map (fun d => (((adj d).count c : ℕ) : ℤ))).sum)) :
    ∀ (fuel : ℕ) (deg : String → ℤ) (queue result : List String),
      KahnInv codes adj deg0 deg queue result →
      codes.length ≤ fuel + result.length →
      KahnInv codes adj deg0
        (kahnLoop adj fuel deg queue result).2.1
        (kahnLoop adj fuel deg queue result).2.2
        (kahnLoop adj fuel deg queue result).1 ∧
      (kahnLoop adj fuel deg queue result).2.2 = [] := by
  intro fuel
  induction fuel with
  | zero =>
    intro deg queue result hinv hlen
    have hqnil : queue = [] := by
      obtain ⟨i1, i2, _⟩ := hinv
      have h1 : (result ++ queue).toFinset.card = (result ++ queue).length :=
        List.toFinset_card_of_nodup i1
      have h2 : (result ++ queue).toFinset ⊆ codes.toFinset := by
        intro x hx
        rw [List.mem_toFinset] at hx ⊢
        exact i2 x hx
      have h3 := List.toFinset_card_le codes
      have h4 := Finset.card_le_card h2
      rw [h1, List.length_append] at h4
      have : queue.length = 0 := by omega
      exact List.eq_nil_of_length_eq_zero this
    subst hqnil
    exact ⟨hinv, rfl⟩
  | succ fuel ih =>
    intro deg queue result hinv hlen
    cases queue with
    | nil => exact ⟨hinv, rfl⟩
    | cons current rest =>
      have hstep := kahnInv_step codes adj deg0 deg rest result current
        hnd hadj hbal hinv
      have hrec := ih (decNeighbors (adj current) (deg, rest)).1
        (decNeighbors (adj current) (deg, rest)).2 (result ++ [current]) hstep
        (by
          simp only [List.length_append, List.length_singleton]
          omega)
      exact hrec

theorem kahnInit (codes : List String) (deps : String → List String)
    (hnd : codes.Nodup) :
    KahnInv codes (buildGraph codes deps).1 (buildGraph codes deps).2
      (buildGraph codes deps).2
      (codes.filter (fun c => (buildGraph codes deps).2 c = 0)) [] := by
  unfold KahnInv
  refine ⟨?_, ?_, ?_, ?_, ?_, ?_, ?_⟩
  · simpa using hnd.filter _
  · intro x hx
    rw [List.nil_append] at hx
    exact (List.mem_filter.mp hx).1
  · intro c
    simp
  · intro c hc
    rw [List.nil_append] at hc
    have h2 := (List.mem_filter.mp hc).2
    simp only [decide_eq_true_eq] at h2
    omega
  · intro c hc hcnot
    rw [List.nil_append] at hcnot
    have hne : ¬ (buildGraph codes deps).2 c = 0 := by
      intro h0
      exact hcnot (List.mem_filter.mpr ⟨hc, by simp [h0]⟩)
    have hnn := buildGraph_deg_nonneg codes deps hnd c
    omega
  · intro c hc d hd hcnt
    exfalso
    have h2 := (List.mem_filter.mp hc).2
    simp only [decide_eq_true_eq] at h2
    have hbalc := buildGraph_balance codes deps hnd c (List.mem_filter.mp hc).1
    have hle : (((((buildGraph codes deps).1 d).count c : ℕ)) : ℤ) ≤
        ((codes.map (fun d2 =>
          ((((buildGraph codes deps).1 d2).count c : ℕ) : ℤ))).sum) := by
      apply List.single_le_sum
      · intro x hx
        obtain ⟨y, hy, rfl⟩ := List.mem_map.mp hx
        positivity
      · exact List.mem_map_of_mem _ hd
    rw [← hbalc, h2] at hle
    omega
  · intro n c hres
    simp at hres

theorem kahnCodes_spec (rows : List Row) (deps : String → List String) :
    KahnInv ((buildRowMap rows).map Prod.fst)
      (buildGraph ((buildRowMap rows).map Prod.fst) deps).1
      (buildGraph ((buildRowMap rows).map Prod.fst) deps).2
      (kahnCodes rows deps).2.1 (kahnCodes rows deps).2.2
      (kahnCodes rows deps).1 ∧
    (kahnCodes rows deps).2.2 = [] := by
  have hnd := buildRowMap_keys_nodup rows
  have hadj : ∀ d x, x ∈ (buildGraph ((buildRowMap rows).map Prod.fst) deps).1 d →
      x ∈ (buildRowMap rows).map Prod.fst :=
    fun d x hx => buildGraph_adj_mem_codes _ deps hnd d x hx
  have hbal := fun c hc =>
    buildGraph_balance ((buildRowMap rows).map Prod.fst) deps hnd c hc
  have hinit := kahnInit ((buildRowMap rows).map Prod.fst) deps hnd
  have hmain := kahnLoop_spec ((buildRowMap rows).map Prod.fst)
    (buildGraph ((buildRowMap rows).map Prod.fst) deps).1
    (buildGraph ((buildRowMap rows).map Prod.fst) deps).2
    hnd hadj hbal
    ((buildRowMap rows).map Prod.fst).length
    (buildGraph ((buildRowMap rows).map Prod.fst) deps).2
    (((buildRowMap rows).map Prod.fst).filter
      (fun c => (buildGraph ((buildRowMap rows).map Prod.fst) deps).2 c = 0))
    [] hinit (by simp)
  exact hmain

theorem kahnRows_mem_sub (rows : List Row) (deps : String → List String) :
    ∀ r ∈ kahnRows rows deps, r ∈ rows := by
  intro r hr
  obtain ⟨c, hc, hlook⟩ := List.mem_filterMap.mp hr
  exact (buildRowMap_mem rows _ (lookup_mem _ c r hlook)).1

theorem kahnCodes_nodup (rows : List Row) (deps : String → List String) :
    (kahnCodes rows deps).1.Nodup := by
  obtain ⟨hinv, hdrain⟩ := kahnCodes_spec rows deps
  have i1 := hinv.1
  rw [hdrain, List.append_nil] at i1
  exact i1

theorem kahnCodes_sub (rows : List Row) (deps : String → List String) :
    ∀ c ∈ (kahnCodes rows deps).1, c ∈ (buildRowMap rows).map Prod.fst := by
  obtain ⟨hinv, hdrain⟩ := kahnCodes_spec rows deps
  have i2 := hinv.2.1
  intro c hc
  exact i2 c (List.mem_append_left _ hc)

theorem kahnRows_nodup (rows : List Row) (deps : String → List String) :
    (kahnRows rows deps).Nodup := by
  apply List.Nodup.filterMap ?_ (kahnCodes_nodup rows deps)
  intro a a' b hb hb'
  rw [Option.mem_def] at hb hb'
  have h1 := (buildRowMap_mem rows _ (lookup_mem _ a b hb)).2
  have h2 := (buildRowMap_mem rows _ (lookup_mem _ a' b hb')).2
  rw [h1] at h2
  injection h2

theorem topologicalSort_perm (deps : String → List String) (rows : List Row)
    (hnd : rows.Nodup) : (topologicalSort deps rows).Perm rows := by
  rw [List.perm_iff_count]
  intro r
  simp only [topologicalSort]
  rw [List.count_append]
  by_cases hK : r ∈ kahnRows rows deps
  · rw [List.count_eq_one_of_mem (kahnRows_nodup rows deps) hK]
    have h0 : (rows.filter
        (fun r2 => decide (¬ r2 ∈ kahnRows rows deps))).count r = 0 := by
      apply List.count_eq_zero.mpr
      intro hmem
      have h2 := (List.mem_filter.mp hmem).2
      simp only [decide_eq_true_eq] at h2
      exact h2 hK
    rw [h0, List.count_eq_one_of_mem hnd (kahnRows_mem_sub rows deps r hK)]
  · rw [List.count_eq_zero.mpr hK, Nat.zero_add,
      List.count_filter (by simp [hK])]

theorem topologicalSort_subset (deps : String → List String) (rows : List Row) :
    ∀ r ∈ topologicalSort deps rows, r ∈ rows := by
  intro r hr
  simp only [topologicalSort] at hr
  rcases List.mem_append.mp hr with h | h
  · exact kahnRows_mem_sub rows deps r h
  · exact (List.mem_filter.mp h).1

/-- C4: for any formula rows with pairwise-distinct reference codes and any
dependency map — cyclic ones included — `_topological_sort` terminates (its
`while queue` loop drains within `len(formula_row_map)` iterations, witnessed
by the fuelled loop returning an empty queue on exactly that much fuel) and
returns every input row exactly once: the result is a permutation of the
input, each input row occurs exactly once, and the rows left over when the
queue drains are appended by the final `for row in formula_rows` pass in
original template order. -/
theorem C4_topological_sort_total (rows : List Row) (deps : String → List String)
    (hnd : rows.Nodup)
    (hcodes : (rows.filterMap (fun r => r.reference_code)).Nodup) :
    (topologicalSort deps rows).Perm rows ∧
    (∀ r ∈ rows, (topologicalSort deps rows).count r = 1) ∧
    (kahnCodes rows deps).2.2 = [] ∧
    topologicalSort deps rows =
      kahnRows rows deps ++
        rows.filter (fun r => ¬ r ∈ kahnRows rows deps) := by
  refine ⟨topologicalSort_perm deps rows hnd, ?_,
    (kahnCodes_spec rows deps).2, rfl⟩
  intro r hr
  rw [(topologicalSort_perm deps rows hnd).count_eq r]
  exact List.count_eq_one_of_mem hnd hr

theorem C4_topological_sort_total_witness :
    ([exRowA, exRowB].Nodup ∧
      ([exRowA, exRowB].filterMap (fun r => r.reference_code)).Nodup) ∧
    ((topologicalSort exDepsCyclic [exRowA, exRowB]).Perm [exRowA, exRowB] ∧
     (∀ r ∈ [exRowA, exRowB],
        (topologicalSort exDepsCyclic [exRowA, exRowB]).count r = 1) ∧
     (kahnCodes [exRowA, exRowB] exDepsCyclic).2.2 = [] ∧
     topologicalSort exDepsCyclic [exRowA, exRowB] =
       kahnRows [exRowA, exRowB] exDepsCyclic ++
         [exRowA, exRowB].filter
           (fun r => ¬ r ∈ kahnRows [exRowA, exRowB] exDepsCyclic)) :=
  ⟨⟨by decide, by decide⟩,
   C4_topological_sort_total [exRowA, exRowB] exDepsCyclic
     (by decide) (by decide)⟩

theorem exists_one_le_of_sum_one_le (l : List String) (f : String → ℤ)
    (hnn : ∀ x ∈ l, 0 ≤ f x) (hpos : 1 ≤ (l.map f).sum) :
    ∃ d ∈ l, 1 ≤ f d := by
  induction l with
  | nil => simp at hpos
  | cons a t ih =>
    simp only [List.map_cons, List.sum_cons] at hpos
    by_cases ha : 1 ≤ f a
    · exact ⟨a, by simp, ha⟩
    · have hts : 1 ≤ (t.map f).sum := by
        have := hnn a (by simp)
        omega
      obtain ⟨d, hd, hfd⟩ :=
        ih (fun x hx => hnn x (List.mem_cons_of_mem _ hx)) hts
      exact ⟨d, List.mem_cons_of_mem _ hd, hfd⟩

theorem buildRowMap_keys_of_nodup (rows : List Row)
    (h : (rows.filterMap (fun r2 => r2.reference_code)).Nodup) :
    (buildRowMap rows).map Prod.fst =
      rows.filterMap (fun r2 => r2.reference_code) := by
  suffices hgen : ∀ (rs : List Row) (acc : List (String × Row)),
      (acc.map Prod.fst ++ rs.filterMap (fun r2 => r2.reference_code)).Nodup →
      ((rs.foldl (fun m r =>
        match r.reference_code with
        | some c => dictInsert m c r
        | none => m) acc).map Prod.fst) =
        acc.map Prod.fst ++ rs.filterMap (fun r2 => r2.reference_code) by
    have hmain := hgen rows [] (by simpa using h)
    simpa using hmain
  intro rs
  induction rs with
  | nil => intro acc _; simp
  | cons r t ih =>
    intro acc hacc
    rw [List.foldl_cons]
    cases hr : r.reference_code with
    | none =>
      simp only [List.filterMap_cons, hr] at hacc ⊢
      exact ih acc hacc
    | some c =>
      simp only [List.filterMap_cons, hr] at hacc ⊢
      have hcnot : c ∉ acc.map Prod.fst := by
        intro hc
        exact (List.nodup_append.mp hacc).2.2 hc (List.mem_cons_self _ _)
      have hno : ¬ acc.any (fun p => decide (p.1 = c)) = true := by
        intro hany
        obtain ⟨p, hp, hpk⟩ := List.any_eq_true.mp hany
        exact hcnot (List.mem_map.mpr ⟨p, hp, of_decide_eq_true hpk⟩)
      have hins : (dictInsert acc c r).map Prod.fst =
          acc.map Prod.fst ++ [c] := by
        rw [keys_dictInsert, if_neg hno]
      have hinv : ((dictInsert acc c r).map Prod.fst ++
          t.filterMap (fun r2 => r2.reference_code)).Nodup := by
        rw [hins, List.append_assoc, List.singleton_append]
        exact hacc
      rw [ih (dictInsert acc c r) hinv, hins, List.append_assoc,
        List.singleton_append]

theorem rc_inj (rows : List Row)
    (h : (rows.filterMap (fun r2 => r2.reference_code)).Nodup) :
    ∀ r ∈ rows, ∀ r' ∈ rows, ∀ c, r.reference_code = some c →
      r'.reference_code = some c → r = r' := by
  induction rows with
  | nil => simp
  | cons a t ih =>
    intro r hr r' hr' c hc hc'
    have htail : (t.filterMap (fun r2 => r2.reference_code)).Nodup := by
      cases ha : a.reference_code with
      | none => simpa [List.filterMap_cons, ha] using h
      | some d =>
        simp only [List.filterMap_cons, ha] at h
        exact (List.nodup_cons.mp h).2
    rcases List.mem_cons.mp hr with rfl | hrt
    · rcases List.mem_cons.mp hr' with rfl | hrt'
      · rfl
      · exfalso
        have hmem : c ∈ t.filterMap (fun r2 => r2.reference_code) :=
          List.mem_filterMap.mpr ⟨r', hrt', hc'⟩
        simp only [List.filterMap_cons, hc] at h
        exact (List.nodup_cons.mp h).1 hmem
    · rcases List.mem_cons.mp hr' with rfl | hrt'
      · exfalso
        have hmem : c ∈ t.filterMap (fun r2 => r2.reference_code) :=
          List.mem_filterMap.mpr ⟨r, hrt, hc⟩
        simp only [List.filterMap_cons, hc'] at h
        exact (List.nodup_cons.mp h).1 hmem
      · exact ih htail r hrt r' hrt' c hc hc'

theorem buildRowMap_lookup_of_mem (rows : List Row)
    (h : (rows.filterMap (fun r2 => r2.reference_code)).Nodup)
    (r : Row) (c : String) (hr : r ∈ rows) (hc : r.reference_code = some c) :
    (buildRowMap rows).lookup c = some r := by
  have hkeys := buildRowMap_keys_of_nodup rows h
  have hcmem : c ∈ (buildRowMap rows).map Prod.fst := by
    rw [hkeys]
    exact List.mem_filterMap.mpr ⟨r, hr, hc⟩
  have hsome : ((buildRowMap rows).lookup c).isSome := by
    apply mem_keys_lookup_isSome
    obtain ⟨p, hp, hpk⟩ := List.mem_map.mp hcmem
    exact ⟨p, hp, hpk⟩
  obtain ⟨r', hr'⟩ := Option.isSome_iff_exists.mp hsome
  have hmem := buildRowMap_mem rows _ (lookup_mem _ c r' hr')
  rw [hr', rc_inj rows h r' hmem.1 r hr c hmem.2 hc]

theorem filterMap_getElem_isSome {α β : Type} (f : α → Option β) :
    ∀ (l : List α), (∀ x ∈ l, (f x).isSome) →
      ∀ i : ℕ, (l.filterMap f)[i]? = (l[i]?).bind f := by
  intro l
  induction l with
  | nil => intro _ i; simp
  | cons x xs ih =>
    intro h i
    obtain ⟨y, hy⟩ := Option.isSome_iff_exists.mp (h x (by simp))
    simp only [List.filterMap_cons, hy]
    cases i with
    | zero => simp [hy]
    | succ n =>
      simp only [List.getElem?_cons_succ]
      exact ih (fun z hz => h z (List.mem_cons_of_mem _ hz)) n

theorem kahnCodes_complete (rows : List Row) (deps : String → List String)
    (hacyc : ∀ c, ¬ Relation.TransGen
      (EdgeRel deps ((buildRowMap rows).map Prod.fst)) c c) :
    ∀ c ∈ (buildRowMap rows).map Prod.fst, c ∈ (kahnCodes rows deps).1 := by
  intro c0 hc0
  by_contra hc0r
  have hnd := buildRowMap_keys_nodup rows
  obtain ⟨hinv, hdrain⟩ := kahnCodes_spec rows deps
  unfold KahnInv at hinv
  obtain ⟨i1, i2, i3, i4, i5, i6, i7⟩ := hinv
  rw [hdrain] at i1 i2 i5
  simp only [List.append_nil] at i1 i2 i5
  have hpred : ∀ c ∈ ((buildRowMap rows).map Prod.fst).filter
      (fun x => decide (¬ x ∈ (kahnCodes rows deps).1)),
      ∃ d, d ∈ ((buildRowMap rows).map Prod.fst).filter
        (fun x => decide (¬ x ∈ (kahnCodes rows deps).1)) ∧
        EdgeRel deps ((buildRowMap rows).map Prod.fst) d c := by
    intro c hcL
    have hcc : c ∈ (buildRowMap rows).map Prod.fst := (List.mem_filter.mp hcL).1
    have hcnr : c ∉ (kahnCodes rows deps).1 := by
      have h2 := (List.mem_filter.mp hcL).2
      simpa using h2
    have h5 : 1 ≤ (kahnCodes rows deps).2.1 c := i5 c hcc hcnr
    have hdegc := i3 c
    have hbalc := buildGraph_balance ((buildRowMap rows).map Prod.fst) deps hnd c hcc
    have hperm := perm_split ((buildRowMap rows).map Prod.fst)
      (kahnCodes rows deps).1 hnd i1 i2
    have hsumsplit := (hperm.map (fun d2 =>
      (((buildGraph ((buildRowMap rows).map Prod.fst) deps).1 d2).count c :
        ℤ))).sum_eq
    rw [List.map_append, List.sum_append] at hsumsplit
    rw [hdegc, hbalc, hsumsplit] at h5
    have hLsum : 1 ≤ (((((buildRowMap rows).map Prod.fst).filter
        (fun x => decide (¬ x ∈ (kahnCodes rows deps).1))).map
        (fun d2 => (((buildGraph ((buildRowMap rows).map Prod.fst) deps).1
          d2).count c : ℤ))).sum) := by
      omega
    obtain ⟨d, hdL, hfd⟩ := exists_one_le_of_sum_one_le _ _
      (fun x _ => by positivity) hLsum
    have hdc : d ∈ (buildRowMap rows).map Prod.fst := (List.mem_filter.mp hdL).1
    have hcnt2 := buildGraph_count ((buildRowMap rows).map Prod.fst) deps hnd c d
    rw [if_pos hcc] at hcnt2
    have hdf : 0 < (((deps c).filter
        (fun x => decide (x ∈ (buildRowMap rows).map Prod.fst))).count d) := by
      omega
    have hddep := List.count_pos_iff.mp hdf
    refine ⟨d, hdL, ?_⟩
    unfold EdgeRel
    exact ⟨(List.mem_filter.mp hddep).1, hdc, hcc⟩
  have hc0L : c0 ∈ ((buildRowMap rows).map Prod.fst).filter
      (fun x => decide (¬ x ∈ (kahnCodes rows deps).1)) :=
    List.mem_filter.mpr ⟨hc0, by simpa using hc0r⟩
  set L := ((buildRowMap rows).map Prod.fst).filter
    (fun x => decide (¬ x ∈ (kahnCodes rows deps).1)) with hLdef
  set F : String → String := fun prev =>
    if h : prev ∈ L then (hpred prev h).choose else prev with hFdef
  have hF : ∀ x, x ∈ L → F x ∈ L ∧
      EdgeRel deps ((buildRowMap rows).map Prod.fst) (F x) x := by
    intro x h
    rw [hFdef]
    simp only [dif_pos h]
    exact (hpred x h).choose_spec
  have hgL : ∀ n, F^[n] c0 ∈ L := by
    intro n
    induction n with
    | zero => simpa using hc0L
    | succ m ih =>
      rw [Function.iterate_succ_apply']
      exact (hF _ ih).1
  have hgE : ∀ n, EdgeRel deps ((buildRowMap rows).map Prod.fst)
      (F^[n + 1] c0) (F^[n] c0) := by
    intro n
    rw [Function.iterate_succ_apply']
    exact (hF _ (hgL n)).2
  have htrans : ∀ i k, Relation.TransGen
      (EdgeRel deps ((buildRowMap rows).map Prod.fst))
      (F^[i + k + 1] c0) (F^[i] c0) := by
    intro i k
    induction k with
    | zero => exact Relation.TransGen.single (hgE i)
    | succ m ih =>
      have harith : i + (m + 1) + 1 = (i + m + 1) + 1 := by ring
      rw [harith]
      exact Relation.TransGen.head (hgE (i + m + 1)) ih
  have hpigeon := Fintype.exists_ne_map_eq_of_card_lt
    (fun k : Fin (L.length + 1) =>
      (⟨L.indexOf (F^[k.1] c0), List.indexOf_lt_length.mpr (hgL k.1)⟩ :
        Fin L.length))
    (by simp)
  obtain ⟨a, b, hab, heq⟩ := hpigeon
  have hval : F^[a.1] c0 = F^[b.1] c0 := by
    have h1 : L.indexOf (F^[a.1] c0) = L.indexOf (F^[b.1] c0) := by
      have h2 := congrArg Fin.val heq
      simpa using h2
    exact (List.indexOf_inj (hgL a.1) (hgL b.1)).mp h1
  rcases lt_or_gt_of_ne (show a.1 ≠ b.1 from fun h => hab (Fin.ext h)) with
    hlt | hgt
  · have hb : b.1 = a.1 + (b.1 - a.1 - 1) + 1 := by omega
    have ht := htrans a.1 (b.1 - a.1 - 1)
    rw [← hb, ← hval] at ht
    exact hacyc _ ht
  · have hb : a.1 = b.1 + (a.1 - b.1 - 1) + 1 := by omega
    have ht := htrans b.1 (a.1 - b.1 - 1)
    rw [← hb, hval] at ht
    exact hacyc _ ht

theorem kahn_edge_lt (rows : List Row) (deps : String → List String)
    (hacyc : ∀ c, ¬ Relation.TransGen
      (EdgeRel deps ((buildRowMap rows).map Prod.fst)) c c)
    (d c : String)
    (he : EdgeRel deps ((buildRowMap rows).map Prod.fst) d c) :
    ∃ i j : ℕ, i < j ∧ (kahnCodes rows deps).1[i]? = some d ∧
      (kahnCodes rows deps).1[j]? = some c := by
  obtain ⟨hinv, hdrain⟩ := kahnCodes_spec rows deps
  unfold KahnInv at hinv
  obtain ⟨i1, i2, i3, i4, i5, i6, i7⟩ := hinv
  unfold EdgeRel at he
  obtain ⟨hdep, hdc, hcc⟩ := he
  have hcres := kahnCodes_complete rows deps hacyc c hcc
  obtain ⟨j, hjlt, hjget⟩ := List.mem_iff_getElem.mp hcres
  have hjgetq : (kahnCodes rows deps).1[j]? = some c := by
    rw [List.getElem?_eq_getElem hjlt, hjget]
  have hnd := buildRowMap_keys_nodup rows
  have hcnt2 := buildGraph_count ((buildRowMap rows).map Prod.fst) deps hnd c d
  rw [if_pos hcc] at hcnt2
  have hdmemf : d ∈ (deps c).filter
      (fun x => decide (x ∈ (buildRowMap rows).map Prod.fst)) :=
    List.mem_filter.mpr ⟨hdep, by simp [hdc]⟩
  have hdfpos := List.count_pos_iff.mpr hdmemf
  have hcntpos : 0 <
      ((buildGraph ((buildRowMap rows).map Prod.fst) deps).1 d).count c := by
    omega
  have hdtake := i7 j c hjgetq d hdc hcntpos
  obtain ⟨i, hilt, higet⟩ := List.mem_iff_getElem.mp hdtake
  have hij : i < j := by
    have hlen := List.length_take_le j (kahnCodes rows deps).1
    omega
  have higetq : (kahnCodes rows deps).1[i]? = some d := by
    have hilen : i < (kahnCodes rows deps).1.length := by
      have := List.length_take_le j (kahnCodes rows deps).1
      have h2 := hjlt
      omega
    rw [List.getElem?_eq_getElem hilen]
    rw [show (kahnCodes rows deps).1[i] = d from by
      rw [← @List.getElem_take String (kahnCodes rows deps).1 j i hilt]
      exact higet]
  exact ⟨i, j, hij, higetq, hjgetq⟩

theorem const_rank_pairwise (l : List Row) (f : Row → ℕ) (k : ℕ)
    (h : ∀ x ∈ l, f x = k) : l.Pairwise (fun a b => f a ≤ f b) := by
  induction l with
  | nil => exact List.Pairwise.nil
  | cons a t ih =>
    refine List.Pairwise.cons ?_
      (ih fun x hx => h x (List.mem_cons_of_mem _ hx))
    intro b hb
    rw [h a (List.mem_cons_self _ _), h b (List.mem_cons_of_mem _ hb)]

theorem pairwise_rank_lt (l : List Row) (f : Row → ℕ)
    (hpw : l.Pairwise (fun a b => f a ≤ f b)) (i j : ℕ) (a b : Row)
    (hi : l[i]? = some a) (hj : l[j]? = some b) (hab : f a < f b) : i < j := by
  by_contra hij
  push_neg at hij
  obtain ⟨hilt, higet⟩ := List.getElem?_eq_some.mp hi
  obtain ⟨hjlt, hjget⟩ := List.getElem?_eq_some.mp hj
  rcases Nat.lt_or_ge j i with hlt | hge
  · have hle := (List.pairwise_iff_getElem.mp hpw) j i hjlt hilt hlt
    rw [higet, hjget] at hle
    omega
  · have heq : i = j := by omega
    subst heq
    rw [higet] at hjget
    rw [hjget] at hab
    exact absurd hab (lt_irrefl _)

theorem getProcessingOrder_rank_pairwise (deps : String → List String)
    (rows : List Row) :
    (getProcessingOrder deps rows).Pairwise
      (fun a b => bucketRank a ≤ bucketRank b) := by
  have hA : ∀ x ∈ rows.filter (fun r => decide (r.data_source = "Custom API")),
      bucketRank x = 0 := by
    intro x hx
    have h := (List.mem_filter.mp hx).2
    simp only [decide_eq_true_eq] at h
    unfold bucketRank
    rw [h]
    decide
  have hB : ∀ x ∈ rows.filter
      (fun r => decide (r.data_source = "Account Data")),
      bucketRank x = 1 := by
    intro x hx
    have h := (List.mem_filter.mp hx).2
    simp only [decide_eq_true_eq] at h
    unfold bucketRank
    rw [h]
    decide
  have hT : ∀ x ∈ (if rows.filter
        (fun r => decide (r.data_source = "Calculated Amount")) ≠ [] then
        topologicalSort deps (rows.filter
          (fun r => decide (r.data_source = "Calculated Amount")))
      else []), bucketRank x = 2 := by
    intro x hx
    split at hx
    · have hx2 := topologicalSort_subset _ _ x hx
      have h := (List.mem_filter.mp hx2).2
      simp only [decide_eq_true_eq] at h
      unfold bucketRank
      rw [h]
      decide
    · simp at hx
  have hO : ∀ x ∈ rows.filter (fun r =>
      decide (¬ (r.data_source = "Custom API" ∨
        r.data_source = "Account Data" ∨
        r.data_source = "Calculated Amount"))),
      bucketRank x = 3 := by
    intro x hx
    have h := (List.mem_filter.mp hx).2
    simp only [decide_eq_true_eq] at h
    push_neg at h
    obtain ⟨h1, h2, h3⟩ := h
    unfold bucketRank
    rw [if_neg h1, if_neg h2, if_neg h3]
  simp only [getProcessingOrder]
  rw [List.pairwise_append, List.pairwise_append, List.pairwise_append]
  refine ⟨⟨⟨const_rank_pairwise _ bucketRank 0 hA,
            const_rank_pairwise _ bucketRank 1 hB, ?_⟩,
          const_rank_pairwise _ bucketRank 2 hT, ?_⟩,
         const_rank_pairwise _ bucketRank 3 hO, ?_⟩
  · intro a ha b hb
    rw [hA a ha, hB b hb]
    omega
  · intro a ha b hb
    rw [hT b hb]
    rcases List.mem_append.mp ha with h | h
    · rw [hA a h]; omega
    · rw [hB a h]; omega
  · intro a ha b hb
    rw [hO b hb]
    rcases List.mem_append.mp ha with h | h
    · rcases List.mem_append.mp h with h2 | h2
      · rw [hA a h2]; omega
      · rw [hB a h2]; omega
    · rw [hT a h]; omega

theorem getElem?_append_offset {α : Type} (l1 l2 : List α) (i : ℕ) :
    (l1 ++ l2)[l1.length + i]? = l2[i]? := by
  rw [List.getElem?_append_right (Nat.le_add_right _ _),
    Nat.add_sub_cancel_left]

/-- C5: when the Calculated Amount dependency graph is acyclic (and the
dependency map only names formula-row codes, which is what the external
`DependencyValidator` produces per the formula-scanning contract), the
processing order returned by `get_processing_order` puts a referenced
formula row strictly before every formula row referencing it, and orders the
buckets Custom API, then Account Data, then Calculated Amount, then the
remaining structural rows. -/
theorem C5_processing_order (rows : List Row) (deps : String → List String)
    (hcodes : (rows.filterMap (fun r2 => r2.reference_code)).Nodup)
    (hdeps : ∀ c d, d ∈ deps c → d ∈ formulaCodes rows)
    (hacyc : ∀ c, ¬ Relation.TransGen (EdgeRel deps (formulaCodes rows)) c c) :
    (∀ a b : Row, ∀ ca cb : String, a ∈ rows → b ∈ rows →
      a.data_source = "Calculated Amount" →
      b.data_source = "Calculated Amount" →
      a.reference_code = some ca → b.reference_code = some cb →
      cb ∈ deps ca →
      ∃ i j : ℕ, i < j ∧ (getProcessingOrder deps rows)[i]? = some b ∧
        (getProcessingOrder deps rows)[j]? = some a) ∧
    (∀ (i j : ℕ) (a b : Row), (getProcessingOrder deps rows)[i]? = some a →
      (getProcessingOrder deps rows)[j]? = some b →
      bucketRank a < bucketRank b → i < j) := by
  constructor
  · intro a b ca cb ha hb hads hbds hca hcb hdep
    have haf : a ∈ rows.filter
        (fun r => decide (r.data_source = "Calculated Amount")) :=
      List.mem_filter.mpr ⟨ha, by simp [hads]⟩
    have hbf : b ∈ rows.filter
        (fun r => decide (r.data_source = "Calculated Amount")) :=
      List.mem_filter.mpr ⟨hb, by simp [hbds]⟩
    have hfcodes : ((rows.filter
        (fun r => decide (r.data_source = "Calculated Amount"))).filterMap
        (fun r2 => r2.reference_code)).Nodup :=
      List.Nodup.sublist
        (List.Sublist.filterMap _ (List.filter_sublist rows)) hcodes
    have hkeys : (buildRowMap (rows.filter
        (fun r => decide (r.data_source = "Calculated Amount")))).map
          Prod.fst = formulaCodes rows :=
      buildRowMap_keys_of_nodup _ hfcodes
    have hacyc2 : ∀ c, ¬ Relation.TransGen (EdgeRel deps
        ((buildRowMap (rows.filter (fun r =>
          decide (r.data_source = "Calculated Amount")))).map Prod.fst)) c c := by
      rw [hkeys]
      exact hacyc
    have hedge : EdgeRel deps ((buildRowMap (rows.filter (fun r =>
        decide (r.data_source = "Calculated Amount")))).map Prod.fst) cb ca := by
      unfold EdgeRel
      rw [hkeys]
      refine ⟨hdep, hdeps ca cb hdep, ?_⟩
      unfold formulaCodes
      exact List.mem_filterMap.mpr ⟨a, haf, hca⟩
    obtain ⟨i, j, hij, hid, hjc⟩ := kahn_edge_lt _ deps hacyc2 cb ca hedge
    have hall : ∀ x ∈ (kahnCodes (rows.filter (fun r =>
        decide (r.data_source = "Calculated Amount"))) deps).1,
        ((buildRowMap (rows.filter (fun r =>
          decide (r.data_source = "Calculated Amount")))).lookup x).isSome := by
      intro x hx
      have hxc := kahnCodes_sub _ deps x hx
      apply mem_keys_lookup_isSome
      obtain ⟨p, hp, hpk⟩ := List.mem_map.mp hxc
      exact ⟨p, hp, hpk⟩
    have hlookb := buildRowMap_lookup_of_mem _ hfcodes b cb hbf hcb
    have hlooka := buildRowMap_lookup_of_mem _ hfcodes a ca haf hca
    have hKi : (kahnRows (rows.filter (fun r =>
        decide (r.data_source = "Calculated Amount"))) deps)[i]? = some b := by
      unfold kahnRows
      rw [filterMap_getElem_isSome _ _ hall i, hid, Option.some_bind, hlookb]
    have hKj : (kahnRows (rows.filter (fun r =>
        decide (r.data_source = "Calculated Amount"))) deps)[j]? = some a := by
      unfold kahnRows
      rw [filterMap_getElem_isSome _ _ hall j, hjc, Option.some_bind, hlooka]
    have hiltK := (List.getElem?_eq_some.mp hKi).1
    have hjltK := (List.getElem?_eq_some.mp hKj).1
    have hTi : (topologicalSort deps (rows.filter (fun r =>
        decide (r.data_source = "Calculated Amount"))))[i]? = some b := by
      simp only [topologicalSort]
      rw [List.getElem?_append, if_pos hiltK]
      exact hKi
    have hTj : (topologicalSort deps (rows.filter (fun r =>
        decide (r.data_source = "Calculated Amount"))))[j]? = some a := by
      simp only [topologicalSort]
      rw [List.getElem?_append, if_pos hjltK]
      exact hKj
    have hfne : rows.filter
        (fun r => decide (r.data_source = "Calculated Amount")) ≠ [] :=
      List.ne_nil_of_mem haf
    have horder : ∀ (k : ℕ) (x : Row),
        (topologicalSort deps (rows.filter (fun r =>
          decide (r.data_source = "Calculated Amount"))))[k]? = some x →
        (getProcessingOrder deps rows)[
          (rows.filter (fun r =>
            decide (r.data_source = "Custom API"))).length
          + (rows.filter (fun r =>
              decide (r.data_source = "Account Data"))).length + k]? =
          some x := by
      intro k x hk
      have hkT := (List.getElem?_eq_some.mp hk).1
      simp only [getProcessingOrder]
      rw [if_pos hfne]
      rw [List.getElem?_append, if_pos (by
        simp only [List.length_append]
        omega)]
      rw [show (rows.filter (fun r =>
            decide (r.data_source = "Custom API"))).length
          + (rows.filter (fun r =>
              decide (r.data_source = "Account Data"))).length + k =
          ((rows.filter (fun r =>
            decide (r.data_source = "Custom API"))) ++
           (rows.filter (fun r =>
            decide (r.data_source = "Account Data")))).length + k from by
        rw [List.length_append]]
      rw [getElem?_append_offset]
      exact hk
    exact ⟨(rows.filter (fun r =>
        decide (r.data_source = "Custom API"))).length
      + (rows.filter (fun r =>
          decide (r.data_source = "Account Data"))).length + i,
      (rows.filter (fun r =>
        decide (r.data_source = "Custom API"))).length
      + (rows.filter (fun r =>
          decide (r.data_source = "Account Data"))).length + j,
      by omega, horder i b hTi, horder j a hTj⟩
  · intro i j a b hi hj hab
    exact pairwise_rank_lt _ bucketRank
      (getProcessingOrder_rank_pairwise deps rows) i j a b hi hj hab

theorem C5_processing_order_witness :
    (([exRowA, exRowB, exRowAcc].filterMap
        (fun r2 => r2.reference_code)).Nodup ∧
      (∀ c d, d ∈ exDepsAcyclic c →
        d ∈ formulaCodes [exRowA, exRowB, exRowAcc]) ∧
      (∀ c, ¬ Relation.TransGen
        (EdgeRel exDepsAcyclic
          (formulaCodes [exRowA, exRowB, exRowAcc])) c c)) ∧
    ((∀ a b : Row, ∀ ca cb : String,
      a ∈ [exRowA, exRowB, exRowAcc] → b ∈ [exRowA, exRowB, exRowAcc] →
      a.data_source = "Calculated Amount" →
      b.data_source = "Calculated Amount" →
      a.reference_code = some ca → b.reference_code = some cb →
      cb ∈ exDepsAcyclic ca →
      ∃ i j : ℕ, i < j ∧
        (getProcessingOrder exDepsAcyclic [exRowA, exRowB, exRowAcc])[i]? =
          some b ∧
        (getProcessingOrder exDepsAcyclic [exRowA, exRowB, exRowAcc])[j]? =
          some a) ∧
     (∀ (i j : ℕ) (a b : Row),
      (getProcessingOrder exDepsAcyclic [exRowA, exRowB, exRowAcc])[i]? =
        some a →
      (getProcessingOrder exDepsAcyclic [exRowA, exRowB, exRowAcc])[j]? =
        some b →
      bucketRank a < bucketRank b → i < j)) := by
  have h1 : (([exRowA, exRowB, exRowAcc].filterMap
      (fun r2 => r2.reference_code)).Nodup) := by decide
  have h2 : ∀ c d, d ∈ exDepsAcyclic c →
      d ∈ formulaCodes [exRowA, exRowB, exRowAcc] := by
    intro c d hd
    unfold exDepsAcyclic at hd
    by_cases hc : c = "A"
    · rw [if_pos hc] at hd
      rw [List.mem_singleton.mp hd]
      decide
    · rw [if_neg hc] at hd
      exact absurd hd (List.not_mem_nil d)
  have h3 : ∀ c, ¬ Relation.TransGen
      (EdgeRel exDepsAcyclic
        (formulaCodes [exRowA, exRowB, exRowAcc])) c c := by
    have hedge_char : ∀ x y,
        EdgeRel exDepsAcyclic (formulaCodes [exRowA, exRowB, exRowAcc]) x y →
        x = "B" ∧ y = "A" := by
      intro x y h
      unfold EdgeRel at h
      obtain ⟨hd, hx, hy⟩ := h
      have hcs : formulaCodes [exRowA, exRowB, exRowAcc] = ["A", "B"] := by
        decide
      rw [hcs] at hy
      unfold exDepsAcyclic at hd
      rcases (show y = "A" ∨ y = "B" from by simpa using hy) with rfl | rfl
      · rw [if_pos rfl] at hd
        exact ⟨List.mem_singleton.mp hd, rfl⟩
      · rw [if_neg (by decide)] at hd
        exact absurd hd (List.not_mem_nil x)
    have htg : ∀ x y, Relation.TransGen
        (EdgeRel exDepsAcyclic
          (formulaCodes [exRowA, exRowB, exRowAcc])) x y →
        x = "B" ∧ y = "A" := by
      intro x y ht
      induction ht with
      | single h => exact hedge_char _ _ h
      | tail ht2 h ih =>
        obtain ⟨hb1, _⟩ := hedge_char _ _ h
        obtain ⟨_, hb2⟩ := ih
        rw [hb2] at hb1
        exact absurd hb1 (by decide)
    intro c ht
    obtain ⟨hc1, hc2⟩ := htg c c ht
    rw [hc1] at hc2
    exact absurd hc2 (by decide)
  exact ⟨⟨h1, h2, h3⟩,
    C5_processing_order [exRowA, exRowB, exRowAcc] exDepsAcyclic h1 h2 h3⟩

theorem processSingleRow_row (env : ProcEnv)
    (rv : List (String × List ℚ)) (row : Row) :
    (processSingleRow env rv row).1.row = row := by
  unfold processSingleRow
  split_ifs <;> rfl

theorem count_filter_neg {α : Type} [DecidableEq α] (p : α → Bool)
    (l : List α) (a : α) (h : ¬ p a = true) : (l.filter p).count a = 0 := by
  apply List.count_eq_zero.mpr
  intro hm
  exact h (List.mem_filter.mp hm).2

theorem processFold_map_row (env : ProcEnv) :
    ∀ (order : List Row) (acc : List RowData)
      (rv : List (String × List ℚ)),
      ((order.foldl (fun (st : List RowData × List (String × List ℚ)) row =>
        let pr := processSingleRow env st.2 row
        (st.1 ++ [pr.1], pr.2)) (acc, rv)).1).map (fun rd => rd.row) =
      acc.map (fun rd => rd.row) ++ order := by
  intro order
  induction order with
  | nil => intro acc rv; simp
  | cons r t ih =>
    intro acc rv
    rw [List.foldl_cons]
    dsimp only
    rw [ih]
    simp [processSingleRow_row]

theorem getProcessingOrder_perm (deps : String → List String)
    (rows : List Row) (hnd : rows.Nodup) :
    (getProcessingOrder deps rows).Perm rows := by
  rw [List.perm_iff_count]
  intro r
  simp only [getProcessingOrder]
  rw [List.count_append, List.count_append, List.count_append]
  by_cases h1 : r.data_source = "Custom API"
  · rw [List.count_filter (by simp [h1])]
    rw [count_filter_neg _ _ _ (by
      simp only [decide_eq_true_eq]
      rw [h1]
      decide)]
    rw [count_filter_neg _ _ _ (by
      simp only [decide_eq_true_eq]
      rw [h1]
      simp)]
    have hT : (if rows.filter
        (fun r2 => decide (r2.data_source = "Calculated Amount")) ≠ [] then
        topologicalSort deps (rows.filter
          (fun r2 => decide (r2.data_source = "Calculated Amount")))
      else []).count r = 0 := by
      apply List.count_eq_zero.mpr
      intro hm
      split at hm
      · have hmem := topologicalSort_subset _ _ r hm
        have h2 := (List.mem_filter.mp hmem).2
        simp only [decide_eq_true_eq] at h2
        rw [h1] at h2
        exact absurd h2 (by decide)
      · simp at hm
    rw [hT]
    omega
  · by_cases h2 : r.data_source = "Account Data"
    · rw [count_filter_neg _ _ _ (by simp [h1])]
      rw [List.count_filter (by simp [h2])]
      rw [count_filter_neg _ _ _ (by
        simp only [decide_eq_true_eq]
        rw [h2]
        simp [h1, h2])]
      have hT : (if rows.filter
          (fun r2 => decide (r2.data_source = "Calculated Amount")) ≠ [] then
          topologicalSort deps (rows.filter
            (fun r2 => decide (r2.data_source = "Calculated Amount")))
        else []).count r = 0 := by
        apply List.count_eq_zero.mpr
        intro hm
        split at hm
        · have hmem := topologicalSort_subset _ _ r hm
          have h3 := (List.mem_filter.mp hmem).2
          simp only [decide_eq_true_eq] at h3
          rw [h2] at h3
          exact absurd h3 (by decide)
        · simp at hm
      rw [hT]
      omega
    · by_cases h3 : r.data_source = "Calculated Amount"
      · rw [count_filter_neg _ _ _ (by simp [h1]),
          count_filter_neg _ _ _ (by simp [h2]),
          count_filter_neg _ _ _ (by
            simp only [decide_eq_true_eq]
            push_neg
            exact Or.inr (Or.inr h3))]
        by_cases hf : rows.filter
            (fun r2 => decide (r2.data_source = "Calculated Amount")) = []
        · rw [if_neg (not_not_intro hf), List.count_nil]
          have hrows : rows.count r = 0 := by
            apply List.count_eq_zero.mpr
            intro hm
            exact List.ne_nil_of_mem
              (List.mem_filter.mpr ⟨hm, by simp [h3]⟩) hf
          omega
        · rw [if_pos hf,
            (topologicalSort_perm deps _ (hnd.filter _)).count_eq r,
            List.count_filter (by simp [h3])]
          omega
      · rw [count_filter_neg _ _ _ (by simp [h1]),
          count_filter_neg _ _ _ (by simp [h2]),
          List.count_filter (by
            simp only [decide_eq_true_eq]
            push_neg
            exact ⟨h1, h2, h3⟩)]
        have hT : (if rows.filter
            (fun r2 => decide (r2.data_source = "Calculated Amount")) ≠ [] then
            topologicalSort deps (rows.filter
              (fun r2 => decide (r2.data_source = "Calculated Amount")))
          else []).count r = 0 := by
          apply List.count_eq_zero.mpr
          intro hm
          split at hm
          · have hmem := topologicalSort_subset _ _ r hm
            have h4 := (List.mem_filter.mp hmem).2
            simp only [decide_eq_true_eq] at h4
            exact h3 h4
          · simp at hm
        rw [hT]
        omega

theorem processAllRows_map_perm (env : ProcEnv) (rows : List Row)
    (hnd : rows.Nodup) :
    ((processAllRows env rows).map (fun rd => rd.row)).Perm rows := by
  simp only [processAllRows]
  have h1 := (List.mergeSort_perm
    ((getProcessingOrder env.deps rows).foldl
      (fun (st : List RowData × List (String × List ℚ)) row =>
        let pr := processSingleRow env st.2 row
        (st.1 ++ [pr.1], pr.2)) ([], [])).1
    (fun a b => decide (a.row.idx.getD 0 ≤ b.row.idx.getD 0))).map
    (fun rd => rd.row)
  have h2 : (((getProcessingOrder env.deps rows).foldl
      (fun (st : List RowData × List (String × List ℚ)) row =>
        let pr := processSingleRow env st.2 row
        (st.1 ++ [pr.1], pr.2)) ([], [])).1).map (fun rd => rd.row) =
      getProcessingOrder env.deps rows := by
    rw [processFold_map_row env (getProcessingOrder env.deps rows) [] []]
    simp
  rw [h2] at h1
  exact h1.trans (getProcessingOrder_perm env.deps rows hnd)

theorem processAllRows_sorted (env : ProcEnv) (rows : List Row) :
    List.Pairwise (fun a b : RowData =>
      a.row.idx.getD 0 ≤ b.row.idx.getD 0) (processAllRows env rows) := by
  simp only [processAllRows]
  have htrans : ∀ a b c : RowData,
      (fun a b : RowData =>
        decide (a.row.idx.getD 0 ≤ b.row.idx.getD 0)) a b = true →
      (fun a b : RowData =>
        decide (a.row.idx.getD 0 ≤ b.row.idx.getD 0)) b c = true →
      (fun a b : RowData =>
        decide (a.row.idx.getD 0 ≤ b.row.idx.getD 0)) a c = true := by
    intro a b c hab hbc
    simp only [decide_eq_true_eq] at hab hbc ⊢
    omega
  have htotal : ∀ a b : RowData,
      ((fun a b : RowData =>
        decide (a.row.idx.getD 0 ≤ b.row.idx.getD 0)) a b ||
       (fun a b : RowData =>
        decide (a.row.idx.getD 0 ≤ b.row.idx.getD 0)) b a) = true := by
    intro a b
    simp only [Bool.or_eq_true, decide_eq_true_eq]
    omega
  have hs := @List.sorted_mergeSort RowData
    (fun a b : RowData => decide (a.row.idx.getD 0 ≤ b.row.idx.getD 0))
    htrans htotal
    (((getProcessingOrder env.deps rows).foldl
      (fun (st : List RowData × List (String × List ℚ)) row =>
        let pr := processSingleRow env st.2 row
        (st.1 ++ [pr.1], pr.2)) ([], [])).1)
  exact hs.imp (fun h => of_decide_eq_true h)

theorem perm_sorted_strict_eq (key : Row → ℕ) :
    ∀ (l1 l2 : List Row), l1.Perm l2 →
      l1.Pairwise (fun a b => key a ≤ key b) →
      l2.Pairwise (fun a b => key a < key b) → l1 = l2 := by
  intro l1 l2
  induction l2 generalizing l1 with
  | nil =>
    intro hp _ _
    exact hp.eq_nil
  | cons b t2 ih =>
    intro hp h1 h2
    cases l1 with
    | nil =>
      exfalso
      have hl := hp.length_eq
      simp at hl
    | cons a t1 =>
      have hab : a = b := by
        by_contra hne
        have hbl1 : b ∈ a :: t1 := hp.mem_iff.mpr (by simp)
        have hal2 : a ∈ b :: t2 := hp.mem_iff.mp (by simp)
        have hbt1 : b ∈ t1 := by
          rcases List.mem_cons.mp hbl1 with h | h
          · exact absurd h.symm hne
          · exact h
        have hat2 : a ∈ t2 := by
          rcases List.mem_cons.mp hal2 with h | h
          · exact absurd h hne
          · exact h
        have hle : key a ≤ key b := (List.pairwise_cons.mp h1).1 b hbt1
        have hlt : key b < key a := (List.pairwise_cons.mp h2).1 a hat2
        omega
      subst hab
      have hpt : t1.Perm t2 := hp.cons_inv
      rw [ih t1 hpt (List.pairwise_cons.mp h1).2 (List.pairwise_cons.mp h2).2]

/-- C9: `process_all_rows` ends with the stable sort
`processed_rows.sort(key=lambda x: getattr(x.row, "idx", 0) or 0)`, so its
output is sorted by declared template index (missing indices counting as 0),
it is a permutation of the template rows, and whenever the template declares
strictly increasing indices the displayed row sequence is exactly the
template's declared order, independent of the dependency-driven computation
order. -/
theorem C9_display_order (env : ProcEnv) (rows : List Row)
    (hnd : rows.Nodup) :
    List.Pairwise (fun a b : RowData =>
      a.row.idx.getD 0 ≤ b.row.idx.getD 0) (processAllRows env rows) ∧
    ((processAllRows env rows).map (fun rd => rd.row)).Perm rows ∧
    (rows.Pairwise (fun a b => a.idx.getD 0 < b.idx.getD 0) →
      (processAllRows env rows).map (fun rd => rd.row) = rows) := by
  refine ⟨processAllRows_sorted env rows,
    processAllRows_map_perm env rows hnd, ?_⟩
  intro hstrict
  apply perm_sorted_strict_eq (fun r => r.idx.getD 0)
  · exact processAllRows_map_perm env rows hnd
  · rw [List.pairwise_map]
    exact processAllRows_sorted env rows
  · exact hstrict

theorem C9_display_order_witness :
    [exRowB, exRowAcc].Nodup ∧
    (List.Pairwise (fun a b : RowData =>
      a.row.idx.getD 0 ≤ b.row.idx.getD 0)
        (processAllRows exC9env [exRowB, exRowAcc]) ∧
     ((processAllRows exC9env [exRowB, exRowAcc]).map
        (fun rd => rd.row)).Perm [exRowB, exRowAcc] ∧
     ([exRowB, exRowAcc].Pairwise
        (fun a b => a.idx.getD 0 < b.idx.getD 0) →
      (processAllRows exC9env [exRowB, exRowAcc]).map
        (fun rd => rd.row) = [exRowB, exRowAcc])) :=
  ⟨by decide, C9_display_order exC9env [exRowB, exRowAcc] (by decide)⟩
